import Mathlib

/-!
# Verification of the ETECPLUS-Datafeeds mapping, normalization and dedup core

This file gives a shallow embedding, in Lean 4, of the field-mapping,
normalization, merge/deduplication and price-quoting core of the
ETECPLUS-Datafeeds repository (`src/core/data_processing.py`,
`src/core/processor.py`, `src/data/manager.py`, and the best-price
selection loop of `streamlit_app.py`), together with theorems settling the
specification claims about that core.

Modelling conventions:
* A pandas cell is a `Val`: a string, a (rational-valued) number, or NaN.
  Python/pandas floats are modelled by exact rationals `ℚ`; float
  formatting (`str(x)`) is modelled exactly for integers and for numbers
  with a terminating decimal expansion (denominator dividing a power of
  ten) — the image of the model's decimal parser; other rationals are
  outside the float-string image and print as `num/den`.
* A DataFrame row is an association list from column names to `Val`s kept
  in column order; a DataFrame is a column list plus a row list.  Pandas
  row indices are modelled as explicit `Nat` positions where the code
  uses them (`find_and_remove_duplicates` and its helpers).
* `pd.to_numeric` / Python `float()` are modelled by a plain decimal
  parser (optional sign, digits, at most one decimal point); exotic forms
  (exponents, "inf") are outside the model.
* `DataFrame.sort_values('Cost per item')` is called with the pandas
  default `kind='quicksort'`, which is deterministic but *not* guaranteed
  stable on ties.  An executable model must fix one deterministic order;
  this file uses a stable insertion sort (`sortByCost`).  No claim is
  settled on the strength of the model's tie order: the two claims whose
  property depends on the tie order (C1's stable tie-break, C5's backfill
  invariant) are reported as code bugs, with closed theorems exhibiting
  the cost-tie underdetermination on concrete inputs.
* `groupby('Variant SKU')` iterates groups in sorted key order, each group
  holding its rows in original order (pandas `sort=True` default); a group
  is the sublist of rows whose SKU equals the key.
-/

namespace Datafeeds

/-- A pandas cell value: a string, a numeric value (floats modelled as
rationals), or NaN (missing). -/
inductive Val where
  | vstr (s : String)
  | vnum (q : ℚ)
  | vnan
deriving DecidableEq, Repr

/-- A DataFrame row: association list from column name to cell value,
kept in column order. -/
abbrev Row := List (String × Val)

/-- A DataFrame: a list of column names plus a list of rows. -/
structure DF where
  cols : List String
  rows : List Row
deriving DecidableEq, Repr

/-- Cell lookup in a row (first matching column wins). -/
def getCell : Row → String → Option Val
  | [], _ => none
  | (k, v) :: r, c => if k = c then some v else getCell r c

/-- Cell assignment: replace the first binding of the column, or append a
new binding at the end (pandas column assignment / `loc` write). -/
def setCell : Row → String → Val → Row
  | [], c, v => [(c, v)]
  | (k, w) :: r, c, v => if k = c then (c, v) :: r else (k, w) :: setCell r c v

/-- Model of `pd.isna` on a cell. -/
def pdIsna : Val → Bool
  | .vnan => true
  | _ => false

/-! ### Character-list string primitives

The model uses list-based string operations throughout (Python `strip`,
`upper`, `lower`, `split`, `replace`, `startswith`, `in`): they are the
direct transcription of the Python string functions and they evaluate
inside the kernel. -/

/-- Whitespace stripped by Python `str.strip()` (ASCII). -/
def isSpaceChar (c : Char) : Bool :=
  c ∈ [' ', '\t', '\n', '\r', Char.ofNat 11, Char.ofNat 12]

/-- Strip leading and trailing whitespace from a character list. -/
def trimChars (l : List Char) : List Char :=
  ((l.dropWhile isSpaceChar).reverse.dropWhile isSpaceChar).reverse

/-- Python `str.strip()`. -/
def strTrim (s : String) : String := String.mk (trimChars s.toList)

/-- Python `str.upper()` (ASCII model). -/
def mapUpper (s : String) : String := String.mk (s.toList.map Char.toUpper)

/-- Python `str.lower()` (ASCII model). -/
def mapLower (s : String) : String := String.mk (s.toList.map Char.toLower)

/-- Does the character occur in the string? -/
def strContainsChar (s : String) (c : Char) : Bool := s.toList.contains c

/-- Python `str.split(c)` for a single-character separator. -/
def splitOnChar (s : String) (c : Char) : List String :=
  (s.toList.splitOn c).map String.mk

/-- Is `pre` a prefix of the first list? -/
def startsWithL : List Char → List Char → Bool
  | _, [] => true
  | [], _ :: _ => false
  | a :: as, b :: bs => a = b && startsWithL as bs

/-- Substring containment on character lists (Python `in`). -/
def containsL : List Char → List Char → Bool
  | [], n => n.isEmpty
  | c :: t, n => startsWithL (c :: t) n || containsL t n

/-- Python `str.endswith(suffix)`. -/
def strEndsWith (s suffix : String) : Bool :=
  startsWithL s.toList.reverse suffix.toList.reverse

/-- Python `str.startswith(pre)`. -/
def strStartsWith (s pre : String) : Bool := startsWithL s.toList pre.toList

/-- Replace every (non-overlapping, left-to-right) occurrence of `pat` by
`rep`; fuelled structural recursion (the fuel is the input length, enough
for every non-empty pattern). -/
def replaceSubFuel (pat rep : List Char) : ℕ → List Char → List Char
  | 0, l => l
  | _ + 1, [] => []
  | fuel + 1, c :: rest =>
      if startsWithL (c :: rest) pat then
        rep ++ replaceSubFuel pat rep fuel ((c :: rest).drop pat.length)
      else c :: replaceSubFuel pat rep fuel rest

/-- Python `str.replace(pat, rep)` (for non-empty `pat`). -/
def strReplace (s pat rep : String) : String :=
  String.mk (replaceSubFuel pat.toList rep.toList s.toList.length s.toList)

/-- Python `sep.join(l)`. -/
def strIntercalate (sep : String) (l : List String) : String :=
  String.mk (List.intercalate sep.toList (l.map String.toList))

/-- ASCII decimal digit test. -/
def isDigit (c : Char) : Bool := '0' ≤ c && c ≤ '9'

/-- Numeric value of a digit list (most significant first). -/
def digitsToNat (l : List Char) : ℕ :=
  l.foldl (fun a c => 10 * a + (c.toNat - 48)) 0

/-- Parse an unsigned decimal numeral (digits with at most one decimal
point, at least one digit): the core of Python `float()` /
`pd.to_numeric` on plain decimal strings. -/
def parseDecCore (l : List Char) : Option ℚ :=
  match l.splitOn '.' with
  | [a] =>
      if a ≠ [] ∧ a.all isDigit then some (digitsToNat a) else none
  | [a, b] =>
      if (a ≠ [] ∨ b ≠ []) ∧ a.all isDigit ∧ b.all isDigit then
        some ((digitsToNat a : ℚ) + (digitsToNat b : ℚ) / (10 : ℚ) ^ b.length)
      else none
  | _ => none

/-- Parse an optionally signed decimal numeral. -/
def parseSignedChars : List Char → Option ℚ
  | '-' :: rest => (parseDecCore rest).map (fun q => -q)
  | '+' :: rest => parseDecCore rest
  | l => parseDecCore l

/-- Model of `pd.to_numeric(s, errors='coerce')` / Python `float(s)` on a
string (surrounding whitespace tolerated, plain decimals only). -/
def toNumericStr (s : String) : Option ℚ :=
  parseSignedChars (trimChars s.toList)

/-- Decimal rendering of a rational: exact for integers and for numbers
with a terminating decimal expansion (denominator dividing a power of
ten), matching Python `str(float)` on that image — `str(5.5) = "5.5"`,
`str(0.01) = "0.01"`, no trailing zeros since the denominator is in
lowest terms.  Rationals outside that image (which no decimal literal
produces) fall back to `num/den`. -/
def ratDecimalStr (q : ℚ) : String :=
  if q.den = 1 then toString q.num
  else
    match (List.range 40).find? (fun k => q.den ∣ 10 ^ k) with
    | some k =>
        let m := q.num.natAbs * ((10 ^ k) / q.den)
        let fs := toString (m % 10 ^ k)
        (if q.num < 0 then "-" else "") ++ toString (m / 10 ^ k) ++ "." ++
          (String.mk (List.replicate (k - fs.length) '0') ++ fs)
    | none => toString q.num ++ "/" ++ toString q.den

/-- Model of Python `str()` / pandas `astype(str)` on a cell.  Exact for
strings and for numbers with terminating decimal expansion; NaN prints
as `"nan"`. -/
def valToStr : Val → String
  | .vstr s => s
  | .vnum q => ratDecimalStr q
  | .vnan => "nan"

/-- Remove every comma (`.str.replace(',', '')`). -/
def stripCommas (s : String) : String :=
  String.mk (s.toList.filter (fun c => c ≠ ','))

/-- First maximal run of digits in a character list, as a number
(`re.search(r'(\d+)', s)`). -/
def firstDigitRun : List Char → Option ℕ
  | [] => none
  | c :: rest =>
      if isDigit c then some (digitsToNat (c :: rest.takeWhile isDigit))
      else firstDigitRun rest

/-- Source `extract_quantity` (src/core/data_processing.py): stock-status
vocabulary, else first digit run, else 0.  Never fails. -/
def extract_quantity (v : Val) : Val :=
  if pdIsna v || v = .vstr "" then .vnum 0
  else
    let s := mapUpper (strTrim (valToStr v))
    if s = "IN STOCK" ∨ s = "AVAILABLE" ∨ s = "YES" then .vnum 999
    else if s = "OUT OF STOCK" ∨ s = "NO" ∨ s = "DISCONTINUED" then .vnum 0
    else
      match firstDigitRun s.toList with
      | some n => .vnum n
      | none => .vnum 0

/-- Python `round()` (banker's rounding, half to even). -/
def bankersRound (q : ℚ) : ℤ :=
  let f := ⌊q⌋
  let r := q - (f : ℚ)
  if r < 1/2 then f
  else if 1/2 < r then f + 1
  else if f % 2 = 0 then f else f + 1

/-- Source `convert_weight_to_grams` (src/core/data_processing.py): keep digits
and dots, parse as kilograms, multiply by 1000, round; failures give 0. -/
def convert_weight_to_grams (v : Val) : Val :=
  if pdIsna v || v = .vstr "" then .vnum 0
  else
    let s := strTrim (valToStr v)
    let clean := s.toList.filter (fun c => isDigit c || c = '.')
    if clean.isEmpty then .vnum 0
    else
      match parseDecCore clean with
      | some w => .vnum ((bankersRound (w * 1000) : ℤ) : ℚ)
      | none => .vnum 0

/-- Source `truncate_title` (src/core/data_processing.py): strip, keep if within
the limit, else truncate to `maxLength - 3` plus `"..."` (or to
`maxLength` when the limit is below 3), then hard-clamp to `maxLength`. -/
def truncate_title (v : Val) (maxLength : ℕ) : String :=
  if pdIsna v || v = .vstr "" then ""
  else
    let s := strTrim (valToStr v)
    if s.length ≤ maxLength then s
    else
      let t :=
        if 3 ≤ maxLength then String.mk (s.toList.take (maxLength - 3)) ++ "..."
        else String.mk (s.toList.take maxLength)
      if maxLength < t.length then String.mk (t.toList.take maxLength) else t

/-! ## Tag synthesizer (`generate_shopify_tags`) -/

/-- Separator class of `re.split(r'[\s/\\|,;:]+', value)` (ASCII
whitespace model). -/
def tagSeps : List Char := [' ', '\t', '\n', '\r', '/', '\\', '|', ',', ';', ':']

/-- Split a character list at separator characters; empty chunks are kept
(they are discarded by the later length filter, matching `re.split`). -/
def splitOnSeps : List Char → List (List Char)
  | [] => [[]]
  | c :: rest =>
      match splitOnSeps rest with
      | [] => if c ∈ tagSeps then [[], []] else [[c]]
      | g :: gs => if c ∈ tagSeps then [] :: g :: gs else (c :: g) :: gs

/-- Model of `\w` for ASCII: letters, digits, underscore. -/
def isWordChar (c : Char) : Bool := c.isAlphanum || c = '_'

/-- Clean one token: drop characters outside `[\w\s\-_]`
(`re.sub(r'[^\w\s\-_]', '', part)`; tokens carry no whitespace). -/
def cleanTagPart (l : List Char) : List Char :=
  l.filter (fun c => isWordChar c || c = '-' || c = '_')

/-- Order-preserving deduplication of a token list. -/
def dedupTags (seen : List String) : List String → List String
  | [] => []
  | t :: ts => if t ∈ seen then dedupTags seen ts else t :: dedupTags (t :: seen) ts

/-- Per-row body of `generate_shopify_tags` (src/core/data_processing.py):
split each non-empty source cell, clean, lowercase, keep tokens of length
> 1, deduplicate preserving order, join with `", "`. -/
def synthTagsForRow (rawCols : List String) (r : Row) (tagCols : List String) : String :=
  let toks := tagCols.foldl (fun acc col =>
    if col ∈ rawCols then
      match getCell r col with
      | some v =>
          if ¬ pdIsna v ∧ strTrim (valToStr v) ≠ "" then
            let parts := splitOnSeps (strTrim (valToStr v)).toList
            acc ++ parts.filterMap (fun p =>
              let cp := cleanTagPart p
              if 1 < cp.length then some (String.mk (cp.map Char.toLower)) else none)
          else acc
      | none => acc
    else acc) []
  strIntercalate ", " (dedupTags [] toks)

/-! ## Mapping resolver (`DataProcessor._apply_mapping`) -/

/-- A per-supplier field mapping: canonical field name → source column /
static value, in insertion order (a Python `dict`). -/
abbrev Mapping := List (String × String)

/-- The canonical fields a mapping populates: its keys minus the
`_file_keyword` entry and the `*_custom` override keys. -/
def mappedFields (m : Mapping) : List String :=
  m.filterMap (fun p =>
    if p.1 = "_file_keyword" ∨ strEndsWith p.1 "_custom" then none else some p.1)

/-- Resolution of a single canonical field for one row
(`_apply_mapping`): (1) existing source column, (2) multi-column tag
synthesis for `Tags`, (3) `*_custom` static value, (4) empty string. -/
def resolveField (rawCols : List String) (m : Mapping) (r : Row) (k sf : String) : Val :=
  if sf ≠ "" ∧ sf ∈ rawCols then (getCell r sf).getD .vnan
  else if k = "Tags" ∧ sf ≠ "" ∧ strContainsChar sf ',' then
    let tagCols := ((splitOnChar sf ',').map strTrim).filter (fun c => c ≠ "")
    let avail := tagCols.filter (fun c => c ∈ rawCols)
    if avail ≠ [] then .vstr (synthTagsForRow rawCols r avail) else .vstr ""
  else
    match m.lookup (k ++ "_custom") with
    | some cv => if cv ≠ "" then .vstr cv else .vstr ""
    | none => .vstr ""

/-- Source `DataProcessor._apply_mapping` followed by `pd.DataFrame(mapped_data)`:
one output row per input row, with one cell per mapped field. -/
def applyMapping (df : DF) (m : Mapping) : DF :=
  { cols := mappedFields m
    rows := df.rows.map (fun r =>
      (mappedFields m).map (fun k =>
        (k, resolveField df.cols m r k ((m.lookup k).getD "")))) }

/-! ## Transformations and catalog defaults -/

/-- Apply a cell transformation to the cells of one column of a row. -/
def mapRowCol (c : String) (f : Val → Val) : Row → Row
  | [] => []
  | (k, w) :: r => (if k = c then (k, f w) else (k, w)) :: mapRowCol c f r

/-- Apply a cell transformation to every cell of one column. -/
def mapCol (df : DF) (c : String) (f : Val → Val) : DF :=
  { cols := df.cols
    rows := df.rows.map (mapRowCol c f) }

/-- Source `DataProcessor._apply_transformations`: quantity extraction, weight
conversion, and (only when some title exceeds 255 characters) title
truncation with the emergency 255-character clamp. -/
def applyTransformations (df : DF) : DF :=
  let s1 := if "Variant Inventory Qty" ∈ df.cols then mapCol df "Variant Inventory Qty" extract_quantity else df
  let s2 := if "Variant Grams" ∈ s1.cols then mapCol s1 "Variant Grams" convert_weight_to_grams else s1
  if "Title" ∈ s2.cols ∧
      s2.rows.any (fun r => 255 < (valToStr ((getCell r "Title").getD .vnan)).length) then
    mapCol s2 "Title" (fun v =>
      let t := truncate_title v 255
      if 255 < t.length then .vstr (String.mk (t.toList.take 255)) else .vstr t)
  else s2

/-- The fixed catalog defaults stamped by `_add_default_values`. -/
def defaultPairs : List (String × String) :=
  [("Published", "true"), ("Option1 Name", "Title"), ("Option1 Value", "Default Title"),
   ("Variant Inventory Tracker", "shopify"), ("Variant Inventory Policy", "deny"),
   ("Variant Fulfillment Service", "manual"), ("Variant Requires Shipping", "true"),
   ("Variant Taxable", "true"), ("Gift Card", "false"), ("Status", "active")]

/-- Source `DataProcessor._add_default_values`: unconditionally assign the vendor
column and every catalog default (pandas column assignment overwrites an
existing column and appends a new one at the end). -/
def addDefaultValues (df : DF) (supplier : String) : DF :=
  let pairs := ("Vendor", supplier) :: defaultPairs
  { cols := pairs.foldl (fun cs p => if p.1 ∈ cs then cs else cs ++ [p.1]) df.cols
    rows := df.rows.map (fun r => pairs.foldl (fun r p => setCell r p.1 (.vstr p.2)) r) }

/-! ## Normalizer (`normalize_dataframe_types`) -/

/-- Columns kept numeric by the normalizer. -/
def numericCols : List String :=
  ["Variant Inventory Qty", "Variant Price", "Cost per item", "Variant Grams"]

/-- Null-sentinel strings collapsed to the empty string. -/
def sentinelStrs : List String := ["nan", "None", "NaN", "<NA>"]

/-- One cell of `normalize_dataframe_types`: numeric columns are
comma-stripped and coerced (unparseable → 0); all other cells become
strings with NaN and null sentinels collapsed to `""`.  (The defensive
`except` branch of the Python is unreachable in the pure model.) -/
def normalizeCell (c : String) (v : Val) : Val :=
  if c ∈ numericCols then
    match toNumericStr (stripCommas (valToStr v)) with
    | some q => .vnum q
    | none => .vnum 0
  else
    match v with
    | .vnan => .vstr ""
    | w =>
        let s := valToStr w
        .vstr (if s ∈ sentinelStrs then "" else s)

/-- Source `normalize_dataframe_types` (src/core/data_processing.py). -/
def normalize_dataframe_types (df : DF) : DF :=
  { cols := df.cols
    rows := df.rows.map (fun r => r.map (fun p => (p.1, normalizeCell p.1 p.2))) }

/-- The per-supplier pipeline of `DataProcessor.process_files`: mapping,
transformations, defaults, then type normalization. -/
def mergedSupplier (raw : DF) (m : Mapping) (supplier : String) : DF :=
  normalize_dataframe_types (addDefaultValues (applyTransformations (applyMapping raw m)) supplier)

/-! ## Merge & dedup engine (`DataProcessor.find_and_remove_duplicates`) -/

/-- The dedup key column. -/
def SKU : String := "Variant SKU"

/-- The cost column. -/
def COST : String := "Cost per item"

/-- Cost coercion of one cell: `astype(str)`, strip commas,
`pd.to_numeric(errors='coerce')`. -/
def costCellCoerce (v : Val) : Val :=
  match toNumericStr (stripCommas (valToStr v)) with
  | some q => .vnum q
  | none => .vnan

/-- In-place cost coercion of the combined table (the two column
assignments at the top of `find_and_remove_duplicates`, which mutate the
caller's DataFrame). -/
def coerceCostDF (df : DF) : DF := mapCol df COST costCellCoerce

/-- The (coerced) cost of a row; 0 when absent (`.get(cost, 0)`). -/
def costOf (r : Row) : ℚ :=
  match getCell r COST with
  | some (.vnum q) => q
  | _ => 0

/-- The SKU cell of a row (NaN when absent). -/
def skuOf (r : Row) : Val := (getCell r SKU).getD .vnan

/-- Boolean SKU-equality test on an indexed row (the `groupby` /
`drop_duplicates` key test). -/
def skuIs (s : Val) (p : ℕ × Row) : Bool := skuOf p.2 = s

/-- Does the row survive `dropna(subset=['Cost per item'])`? -/
def hasNumCost (r : Row) : Bool :=
  match getCell r COST with
  | some (.vnum _) => true
  | _ => false

/-- A row paired with its pandas index (position in the concatenated
table). -/
abbrev IRow := ℕ × Row

/-- Stable insertion by ascending cost: the new element goes before the
first element of not-smaller cost. -/
def insertByCost (x : IRow) : List IRow → List IRow
  | [] => [x]
  | y :: ys => if costOf y.2 < costOf x.2 then y :: insertByCost x ys else x :: y :: ys

/-- Deterministic model of `sort_values('Cost per item')` on the indexed
rows, as a stable insertion sort.  The source calls `sort_values` with
the pandas default `kind='quicksort'`, which does *not* guarantee any
particular order on cost ties; the model's tie order (original order) is
a choice forced by executability, not a property of the code, and no
claim is settled on its strength (see the header note). -/
def sortByCost : List IRow → List IRow
  | [] => []
  | x :: xs => insertByCost x (sortByCost xs)

/-- Model of `drop_duplicates('Variant SKU', keep='first')`: keep the first row of
each SKU. -/
def dedupBySKUAux (seen : List Val) : List IRow → List IRow
  | [] => []
  | r :: rs =>
      if skuOf r.2 ∈ seen then dedupBySKUAux seen rs
      else r :: dedupBySKUAux (skuOf r.2 :: seen) rs

/-- Model of `drop_duplicates('Variant SKU', keep='first')`. -/
def dedupBySKU (l : List IRow) : List IRow := dedupBySKUAux [] l

/-! ### Image backfill (`_preserve_images_from_duplicates`) -/

/-- The image-bearing fields probed, in source priority order. -/
def imageFields : List String :=
  ["Image Src", "Variant Image", "Image", "Product Image", "Image URL"]

/-- Is the kept row's image value empty/null/placeholder? -/
def isEmptyImage (v : Val) : Bool :=
  pdIsna v || strTrim (valToStr v) = "" ||
    mapLower (valToStr v) ∈ ["none", "null", "n/a"]

/-- Is a removed row's image value adoptable: non-null, non-empty,
non-placeholder, and URL-shaped (known scheme prefix or a dot)? -/
def isAdoptableImage (v : Val) : Bool :=
  ¬ pdIsna v ∧ strTrim (valToStr v) ≠ "" ∧
    mapLower (valToStr v) ∉ ["none", "null", "n/a"] ∧
    (strStartsWith (valToStr v) "http" ∨ strStartsWith (valToStr v) "https" ∨
      strStartsWith (valToStr v) "www." ∨ strStartsWith (valToStr v) "ftp://" ∨
      strContainsChar (valToStr v) '.')

/-- For one image field: if the kept row's value is empty, adopt the
first adoptable value among the removed rows (scanned in cost-ascending
order), else leave the kept row unchanged. -/
def adoptFor (removed : List IRow) (f : String) (kept : Row) : Row :=
  if isEmptyImage ((getCell kept f).getD .vnan) then
    match removed.find? (fun rr => isAdoptableImage ((getCell rr.2 f).getD (.vstr ""))) with
    | some rr => setCell kept f ((getCell rr.2 f).getD (.vstr ""))
    | none => kept
  else kept

/-- Backfill every found image field of a kept row from the removed rows
of its group, in the fixed priority order. -/
def backfillKept (removed : List IRow) (found : List String) (kept : Row) : Row :=
  found.foldl (fun k f => adoptFor removed f k) kept

/-- Source `_preserve_images_from_duplicates`: per duplicate group (rows sharing
a SKU), backfill the kept (lowest-cost, earliest) row's image fields from
the removed rows.  The pandas original walks groups and writes through
`loc` into the working table; under the unique row index this equals the
per-row formulation below: a row is rewritten exactly when it is the kept
row of a group of size > 1. -/
def preserveRow (found : List String) (rows : List IRow) (p : IRow) : IRow :=
  let g := rows.filter (skuIs (skuOf p.2))
  if 1 < g.length then
    match sortByCost g with
    | [] => p
    | kept :: removed =>
        if kept.1 = p.1 then (p.1, backfillKept removed found kept.2) else p
  else p

/-- See `preserveRow`. -/
def preserveImages (cols : List String) (rows : List IRow) : List IRow :=
  rows.map (preserveRow (imageFields.filter (fun f => f ∈ cols)) rows)

/-! ### Removal report -/

/-- One entry of the duplicate-removal report. -/
structure RemovalRecord where
  sku : Val
  title : Val
  vendorRemoved : Val
  costRemoved : Val
  vendorKept : Val
  costKept : Val
  savings : Val
deriving DecidableEq, Repr

/-- Lexicographic comparison on characters. -/
def charListLe : List Char → List Char → Bool
  | [], _ => true
  | _ :: _, [] => false
  | a :: as, b :: bs =>
      if a.toNat < b.toNat then true
      else if b.toNat < a.toNat then false
      else charListLe as bs

/-- Group-key ordering used by `groupby` (string representation). -/
def valLe (a b : Val) : Bool := charListLe (valToStr a).toList (valToStr b).toList

/-- Insertion sort of group keys. -/
def insertVal (x : Val) : List Val → List Val
  | [] => [x]
  | y :: ys => if valLe x y then x :: y :: ys else y :: insertVal x ys

/-- Sort group keys (pandas `groupby` iterates keys in sorted order). -/
def sortVals : List Val → List Val
  | [] => []
  | x :: xs => insertVal x (sortVals xs)

/-- Order-preserving deduplication of key values. -/
def dedupVals (seen : List Val) : List Val → List Val
  | [] => []
  | v :: vs => if v ∈ seen then dedupVals seen vs else v :: dedupVals (v :: seen) vs

/-- The distinct SKU keys of the working table, in `groupby` iteration
order. -/
def sortedSkuKeys (rows : List IRow) : List Val :=
  sortVals (dedupVals [] (rows.map (fun p => skuOf p.2)))

/-- The removal report of `find_and_remove_duplicates`: for each group of
size > 1, one record per removed row with the kept vendor/cost and the
savings.  (The Python reads the kept vendor with an unguarded `loc`;
absent columns are modelled as NaN.) -/
def removalsFor (rows : List IRow) : List RemovalRecord :=
  ((sortedSkuKeys rows).map (fun s =>
    let g := rows.filter (skuIs s)
    if 1 < g.length then
      match sortByCost g with
      | [] => []
      | kept :: removed =>
          removed.map (fun rr =>
            { sku := s
              title := (getCell rr.2 "Title").getD (.vstr "")
              vendorRemoved := (getCell rr.2 "Vendor").getD (.vstr "")
              costRemoved := (getCell rr.2 COST).getD (.vnum 0)
              vendorKept := (getCell kept.2 "Vendor").getD .vnan
              costKept := (getCell kept.2 COST).getD .vnan
              savings := .vnum (costOf rr.2 - costOf kept.2) })
    else [])).flatten

/-! ### The merge pass -/

/-- Result of `find_and_remove_duplicates`: the caller's table after the
call (the function mutates its argument's cost column in place), the
final deduplicated rows (with their original indices, as pandas keeps
them), the final column list, and the removal report. -/
structure MergeOutput where
  callerAfter : DF
  finalRows : List IRow
  finalCols : List String
  removals : List RemovalRecord
deriving DecidableEq, Repr

/-- Enumerate rows with their pandas indices `0, 1, 2, …`. -/
def indexRows (rows : List Row) : List IRow :=
  (List.range rows.length).zip rows

/-- The working table of the merge pass: cost-coerced rows that survive
`dropna(subset=['Cost per item'])`, with their original indices. -/
def mergeWorking (df : DF) : List IRow :=
  (indexRows (coerceCostDF df).rows).filter (fun p => hasNumCost p.2)

/-- Source `DataProcessor.find_and_remove_duplicates` (src/core/processor.py):
guard on the SKU and cost columns; coerce costs in place (mutating the
caller's table); drop unparseable costs (the `dropna` result is a fresh
copy, so later writes do not reach the caller); backfill images from
duplicates; sort by cost and drop duplicate SKUs keeping the first;
report the removals. -/
def find_and_remove_duplicates (df : DF) : MergeOutput :=
  if SKU ∈ df.cols ∧ COST ∈ df.cols then
    let caller := coerceCostDF df
    let backfilled := preserveImages df.cols (mergeWorking df)
    { callerAfter := caller
      finalRows := dedupBySKU (sortByCost backfilled)
      finalCols := df.cols
      removals := removalsFor backfilled }
  else
    { callerAfter := df
      finalRows := indexRows df.rows
      finalCols := df.cols
      removals := [] }

/-- Model of `pd.concat(dfs, ignore_index=True)` over normalized tables: union of
the columns in order of first appearance; rows aligned to the union with
NaN in missing columns. -/
def concatDFs (dfs : List DF) : DF :=
  let cols := dfs.foldl (fun acc d => acc ++ d.cols.filter (fun c => c ∉ acc)) []
  { cols := cols
    rows := (dfs.map (fun d =>
      d.rows.map (fun r => cols.map (fun c => (c, (getCell r c).getD .vnan))))).flatten }

/-- One full merge-and-dedup pass over the per-supplier canonical tables:
concatenate, then find and remove duplicates. -/
def mergeAndDedupPass (dfs : List DF) : MergeOutput :=
  find_and_remove_duplicates (concatDFs dfs)

/-! ## Quote index (`QuotingManager.generate_quote_data`) -/

/-- Does the quote path copy a source column for this canonical field
(`if mapped_col and mapped_col in supplier_df.columns`)?  Only such an
assignment is a Series assignment, which is what establishes the row
index of the initially empty `export_data` frame. -/
def quoteHasSeries (rawCols : List String) (m : Mapping) (k : String) : Bool :=
  match m.lookup k with
  | some mc => mc ≠ "" ∧ mc ∈ rawCols
  | none => false

/-- The scalar assigned for a canonical field the quote path does not
copy from a source column: the `*_custom` static value when present and
non-empty, else the empty string. -/
def quoteScalar (m : Mapping) (k : String) : Val :=
  match m.lookup k with
  | some _ =>
      match m.lookup (k ++ "_custom") with
      | some cv => if cv ≠ "" then .vstr cv else .vstr ""
      | none => .vstr ""
  | none => .vstr ""

/-- One column assignment of the `export_data` build loop, on the slice
of the frame belonging to one source row.  The state carries whether a
Series assignment has already established the row index.  A Series
assignment to a frame whose index is still empty reindexes the whole
frame to the series' index with NaN fill (pandas `_ensure_valid_index`),
so every scalar column assigned before the first column copy is lost to
NaN; scalar assignments after it broadcast normally. -/
def quoteStep (rawCols : List String) (m : Mapping) (r : Row) (st : Row × Bool) (k : String) :
    Row × Bool :=
  if quoteHasSeries rawCols m k then
    if st.2 then (setCell st.1 k ((getCell r ((m.lookup k).getD "")).getD .vnan), true)
    else (setCell (st.1.map (fun p => (p.1, Val.vnan))) k
            ((getCell r ((m.lookup k).getD "")).getD .vnan), true)
  else (setCell st.1 k (quoteScalar m k), st.2)

/-- The slice of `export_data` produced for one source row, after the
whole column loop of `generate_quote_data`. -/
def buildQuoteRow (rawCols : List String) (m : Mapping) (shopCols : List String) (r : Row) : Row :=
  (shopCols.foldl (quoteStep rawCols m r) ([], false)).1

/-- The per-supplier quote table built by `generate_quote_data`.  When
some canonical field copies an existing source column (and the source
table is non-empty), every input row yields exactly one output row,
tagged with its supplier in the `_Supplier` column.  Otherwise no Series
assignment ever establishes the frame's index, `export_data` stays empty
(scalar assignments to an empty-index frame produce zero rows), and the
supplier is skipped by the `if not export_data.empty` guard
(manager.py:145): it contributes no rows at all. -/
def buildQuote (raw : DF) (m : Mapping) (shopCols : List String) (supplier : String) : DF :=
  if shopCols.any (quoteHasSeries raw.cols m) = true ∧ raw.rows ≠ [] then
    { cols := (shopCols.foldl (fun cs c => if c ∈ cs then cs else cs ++ [c]) []) ++
        (if "_Supplier" ∈ shopCols then [] else ["_Supplier"])
      rows := raw.rows.map (fun r =>
        setCell (buildQuoteRow raw.cols m shopCols r) "_Supplier" (.vstr supplier)) }
  else { cols := [], rows := [] }

/-- The cell value a column assignment stores once the row index is
established: the source-column value for a column copy, the scalar
otherwise. -/
def quoteCellVal (rawCols : List String) (m : Mapping) (r : Row) (k : String) : Val :=
  if quoteHasSeries rawCols m k then (getCell r ((m.lookup k).getD "")).getD .vnan
  else quoteScalar m k

/-! ## Best-price selection (streamlit_app.py search results) -/

/-- The prioritized Shopify cost fields. -/
def shopifyCostFields : List String := ["Cost per item", "Variant Price"]

/-- The generic cost-bearing keywords. -/
def genericCostFields : List String :=
  ["cost", "price", "wholesale", "buy", "purchase", "dealer", "trade", "net"]

/-- Does the column bear a cost (Shopify cost field, or a generic cost
keyword occurs in the lowercased name)? -/
def isCostBearing (c : String) : Bool :=
  c ∈ shopifyCostFields ||
    genericCostFields.any (fun kw => containsL (mapLower c).toList kw.toList)

/-- Strip currency decorations from a raw price string. -/
def cleanPriceStr (s : String) : String :=
  strTrim (strReplace (strReplace (strReplace (strReplace (strReplace s "$" "")
    "," "") " " "") "AUD" "") "USD" "")

/-- Parse one candidate price cell: skip NaN/empty, strip decorations,
reject the placeholder vocabulary, parse, and require a strictly positive
value — placeholders are treated as absent, never as zero. -/
def parsePrice (v : Val) : Option ℚ :=
  if pdIsna v || v = .vstr "" then none
  else
    let ps := cleanPriceStr (valToStr v)
    if ps ≠ "" ∧ mapLower ps ∉ ["nan", "none", "", "null", "0", "0.0", "0.00"] then
      match toNumericStr ps with
      | some q => if 0 < q then some q else none
      | none => none
    else none

/-- The running best pick of the selection loop: the cost field it came
from, its parsed value, and the row. -/
structure BestPick where
  field : String
  value : ℚ
  row : Row
deriving DecidableEq, Repr

/-- Is a candidate price below the running minimum? -/
def belowBest (b : Option BestPick) (p : ℚ) : Bool :=
  match b with
  | none => true
  | some bb => p < bb.value

/-- One cell of the selection loop of streamlit_app.py: a
`Cost per item` candidate displaces the running best when strictly
smaller; any other cost-bearing candidate is considered only while the
running best did not come from `Cost per item`. -/
def considerCell (r : Row) (b : Option BestPick) (c : String) (v : Val) : Option BestPick :=
  if isCostBearing c then
    match parsePrice v with
    | some p =>
        if c = "Cost per item" then
          if belowBest b p then some ⟨c, p, r⟩ else b
        else if (match b with | none => true | some bb => bb.field ≠ "Cost per item") then
          if belowBest b p then some ⟨c, p, r⟩ else b
        else b
    | none => b
  else b

/-- Process one matching row (its cells in column order). -/
def considerRow (b : Option BestPick) (r : Row) : Option BestPick :=
  r.foldl (fun b p => considerCell r b p.1 p.2) b

/-- The lowest-cost-product selection loop over the search matches. -/
def lowestCostProduct (rows : List Row) : Option BestPick :=
  rows.foldl considerRow none

/-- The parsed primary-field (`Cost per item`) candidates of one row, in
cell order (proof infrastructure for the selection loop). -/
def primCands (r : Row) : List ℚ :=
  r.filterMap (fun p => if p.1 = "Cost per item" then parsePrice p.2 else none)

/-- One step of the running-minimum over primary candidates. -/
def stepC (b : Option BestPick) (c : ℚ × Row) : Option BestPick :=
  if belowBest b c.1 then some ⟨"Cost per item", c.1, c.2⟩ else b

/-- All primary-field candidates of the matches, row by row. -/
def primCandsRows (rows : List Row) : List (ℚ × Row) :=
  (rows.map (fun r => (primCands r).map (fun q => (q, r)))).flatten

/-! ## Concrete tables and mappings used by witnesses and counterexamples -/

/-- Two suppliers offering the same SKU `X1` at costs 19.99 and 25.50
(the spec's dedup scenario). -/
def dfDedup : DF :=
  { cols := ["Variant SKU", "Cost per item", "Vendor"]
    rows :=
      [[("Variant SKU", .vstr "X1"), ("Cost per item", .vstr "19.99"), ("Vendor", .vstr "A")],
       [("Variant SKU", .vstr "X1"), ("Cost per item", .vstr "25.50"), ("Vendor", .vstr "B")]] }

/-- A kept row with no image and a costlier duplicate carrying a URL:
the backfill scenario. -/
def dfImg : DF :=
  { cols := ["Variant SKU", "Cost per item", "Image Src"]
    rows :=
      [[("Variant SKU", .vstr "X1"), ("Cost per item", .vstr "5"), ("Image Src", .vstr "")],
       [("Variant SKU", .vstr "X1"), ("Cost per item", .vstr "7"),
        ("Image Src", .vstr "http://img.example.com/a.jpg")]] }

/-- The cost-coerced first row of `dfImg`. -/
def imgKept : IRow :=
  (0, [("Variant SKU", .vstr "X1"), ("Cost per item", .vnum 5), ("Image Src", .vstr "")])

/-- The cost-coerced second row of `dfImg`. -/
def imgRemoved : IRow :=
  (1, [("Variant SKU", .vstr "X1"), ("Cost per item", .vnum 7),
       ("Image Src", .vstr "http://img.example.com/a.jpg")])

/-- A table lacking the SKU column (dedup must be a no-op). -/
def dfNoSku : DF :=
  { cols := ["Cost per item", "Vendor"]
    rows := [[("Cost per item", .vstr "5"), ("Vendor", .vstr "A")]] }

/-- A raw cost cell that is numeric but negative. -/
def dfNeg : DF :=
  { cols := ["Cost per item"]
    rows := [[("Cost per item", .vstr "-5")]] }

/-- A supplier table whose mapping explicitly maps the catalog-default
field `Status`. -/
def rawStatus : DF :=
  { cols := ["St"], rows := [[("St", .vstr "draft")]] }

/-- The mapping for `rawStatus`: `Status` is explicitly mapped. -/
def mapStatus : Mapping := [("Status", "St")]

/-- A supplier table whose mapping routes a stock-status column into the
quantity field (the parsers fire on the merge path only). -/
def rawQty : DF :=
  { cols := ["Qty"], rows := [[("Qty", .vstr "In Stock")]] }

/-- The mapping for `rawQty`. -/
def mapQty : Mapping := [("Variant Inventory Qty", "Qty")]

/-- A plain text column, mapped one-to-one (quote and merge paths agree
on it). -/
def rawHandle : DF :=
  { cols := ["Name"], rows := [[("Name", .vstr "Widget")]] }

/-- The mapping for `rawHandle`. -/
def mapHandle : Mapping := [("Handle", "Name")]

/-- Search matches where a secondary-field price (5) is seen before a
primary-field cost (10). -/
def rowsPriority : List Row :=
  [[("Cost per item", .vstr ""), ("Variant Price", .vstr "5")],
   [("Cost per item", .vstr "10"), ("Variant Price", .vstr "")]]

/-- The spec's quoting scenario: three supplier entries for `ABC123` with
costs 10, 8 and 12. -/
def rowsScenario : List Row :=
  [[("Variant SKU", .vstr "ABC123"), ("Cost per item", .vstr "10"), ("_Supplier", .vstr "A")],
   [("Variant SKU", .vstr "ABC123"), ("Cost per item", .vstr "8"), ("_Supplier", .vstr "B")],
   [("Variant SKU", .vstr "ABC123"), ("Cost per item", .vstr "12"), ("_Supplier", .vstr "C")]]

/-- Two rows sharing SKU `X1` at the *same* cost `5`, from different
vendors: a tie at the minimum cost, on which the pandas default
(unstable) `kind='quicksort'` gives no order guarantee. -/
def dfTie : DF :=
  { cols := [SKU, COST, "Vendor"]
    rows := [[(SKU, .vstr "X1"), (COST, .vstr "5"), ("Vendor", .vstr "A")],
             [(SKU, .vstr "X1"), (COST, .vstr "5"), ("Vendor", .vstr "B")]] }

/-- The cost-coerced first row of `dfTie`. -/
def tieA : IRow :=
  (0, [(SKU, Val.vstr "X1"), (COST, Val.vnum 5), ("Vendor", Val.vstr "A")])

/-- The cost-coerced second row of `dfTie`. -/
def tieB : IRow :=
  (1, [(SKU, Val.vstr "X1"), (COST, Val.vnum 5), ("Vendor", Val.vstr "B")])

/-- Three rows sharing SKU `X1`: two tied at the minimum cost `5`, both
with an empty image, and a costlier duplicate carrying a URL. -/
def dfTie5 : DF :=
  { cols := [SKU, COST, "Image Src", "Handle"]
    rows :=
      [[(SKU, .vstr "X1"), (COST, .vstr "5"), ("Image Src", .vstr ""), ("Handle", .vstr "h0")],
       [(SKU, .vstr "X1"), (COST, .vstr "5"), ("Image Src", .vstr ""), ("Handle", .vstr "h1")],
       [(SKU, .vstr "X1"), (COST, .vstr "7"), ("Image Src", .vstr "http://img/1.jpg"),
        ("Handle", .vstr "h2")]] }

/-- The cost-coerced first row of `dfTie5`. -/
def tie5A : IRow :=
  (0, [(SKU, Val.vstr "X1"), (COST, Val.vnum 5), ("Image Src", Val.vstr ""),
       ("Handle", Val.vstr "h0")])

/-- The cost-coerced second row of `dfTie5`. -/
def tie5B : IRow :=
  (1, [(SKU, Val.vstr "X1"), (COST, Val.vnum 5), ("Image Src", Val.vstr ""),
       ("Handle", Val.vstr "h1")])

/-- The cost-coerced third row of `dfTie5`. -/
def tie5C : IRow :=
  (2, [(SKU, Val.vstr "X1"), (COST, Val.vnum 7), ("Image Src", Val.vstr "http://img/1.jpg"),
       ("Handle", Val.vstr "h2")])

/-! ## Basic lemmas on cells and rows -/

theorem getCell_setCell_self (r : Row) (c : String) (v : Val) :
    getCell (setCell r c v) c = some v := by
  induction r with
  | nil => simp [setCell, getCell]
  | cons p r ih =>
      obtain ⟨k, w⟩ := p
      by_cases h : k = c
      · simp [setCell, getCell, h]
      · simp [setCell, getCell, h, ih]

theorem getCell_setCell_ne (r : Row) (c c' : String) (v : Val) (h : c' ≠ c) :
    getCell (setCell r c v) c' = getCell r c' := by
  induction r with
  | nil =>
      simp only [setCell, getCell]
      rw [if_neg (fun e => h e.symm)]
  | cons p r ih =>
      obtain ⟨k, w⟩ := p
      by_cases hk : k = c
      · subst hk
        simp [setCell, getCell, Ne.symm h]
      · by_cases hk' : k = c'
        · subst hk'
          simp [setCell, getCell, hk]
        · simp [setCell, getCell, hk, hk', ih]

theorem getCell_mapRowCol (r : Row) (c c' : String) (f : Val → Val) :
    getCell (mapRowCol c f r) c' =
      if c' = c then (getCell r c).map f else getCell r c' := by
  induction r with
  | nil => by_cases hc : c' = c <;> simp [mapRowCol, getCell, hc]
  | cons p r ih =>
      obtain ⟨k, w⟩ := p
      simp only [mapRowCol]
      by_cases hk : k = c
      · subst hk
        rw [if_pos rfl]
        by_cases hc : c' = k
        · subst hc
          simp [getCell, ih]
        · have hc2 : ¬ k = c' := fun e => hc e.symm
          simp [getCell, hc, hc2, ih]
      · rw [if_neg hk]
        by_cases hk' : k = c'
        · subst hk'
          simp [getCell, hk]
        · simp [getCell, hk, hk', ih]

/-- A fold of `setCell`s over keys not containing `c` leaves the `c` cell
unchanged. -/
theorem getCell_foldl_setCellPairs_not_mem (pairs : List (String × String)) (r : Row)
    (c : String) (h : ∀ p ∈ pairs, p.1 ≠ c) :
    getCell (pairs.foldl (fun r p => setCell r p.1 (.vstr p.2)) r) c = getCell r c := by
  induction pairs generalizing r with
  | nil => rfl
  | cons p ps ih =>
      have hp : p.1 ≠ c := h p (by simp)
      rw [List.foldl_cons, ih _ (fun q hq => h q (by simp [hq]))]
      exact getCell_setCell_ne _ _ _ _ (Ne.symm hp)

/-- A fold of `setCell`s over pairs with distinct keys stores each pair's
value at its key. -/
theorem getCell_foldl_setCellPairs_mem (pairs : List (String × String)) (r : Row)
    (c dv : String) (hnd : (pairs.map Prod.fst).Nodup) (hmem : (c, dv) ∈ pairs) :
    getCell (pairs.foldl (fun r p => setCell r p.1 (.vstr p.2)) r) c = some (.vstr dv) := by
  induction pairs generalizing r with
  | nil => cases hmem
  | cons p ps ih =>
      rw [List.foldl_cons]
      rcases List.mem_cons.mp hmem with h | h
      · subst h
        have hnotin : ∀ q ∈ ps, q.1 ≠ c := by
          intro q hq
          have hnin := (List.nodup_cons.mp hnd).1
          intro hqc
          exact hnin (by simpa [hqc] using List.mem_map_of_mem Prod.fst hq)
        rw [getCell_foldl_setCellPairs_not_mem _ _ _ hnotin]
        exact getCell_setCell_self _ _ _
      · exact ih _ (List.nodup_cons.mp hnd).2 h

/-- A fold of `setCell`s over a key list not containing `c` leaves the
`c` cell unchanged. -/
theorem getCell_foldl_setCellKeys_not_mem (ks : List String) (init : Row)
    (h : String → Val) (c : String) (hc : c ∉ ks) :
    getCell (ks.foldl (fun acc k => setCell acc k (h k)) init) c = getCell init c := by
  induction ks generalizing init with
  | nil => rfl
  | cons k ks ih =>
      rw [List.foldl_cons, ih _ (fun e => hc (List.mem_cons_of_mem _ e))]
      exact getCell_setCell_ne _ _ _ _ (fun e => hc (e ▸ List.mem_cons_self _ _))

/-- A fold of `setCell`s over a key list, each storing `h k`, stores
`h c` at any key `c` of the list. -/
theorem getCell_foldl_setCellKeys (ks : List String) (init : Row)
    (h : String → Val) (c : String) (hc : c ∈ ks) :
    getCell (ks.foldl (fun acc k => setCell acc k (h k)) init) c = some (h c) := by
  induction ks generalizing init with
  | nil => cases hc
  | cons k ks ih =>
      rw [List.foldl_cons]
      by_cases hmem : c ∈ ks
      · exact ih _ hmem
      · have hk : k = c := by
          rcases List.mem_cons.mp hc with h' | h'
          · exact h'.symm
          · exact absurd h' hmem
        subst hk
        rw [getCell_foldl_setCellKeys_not_mem _ _ _ _ hmem, getCell_setCell_self]

/-! ## C9: `truncate_title` never exceeds the limit -/

/-- Claim C9: for every input value and every `max_len ≥ 0`, the length of
`truncate_title(raw, max_len)` is at most `max_len`.  The final clamp of
the source guarantees this in every branch. -/
theorem C9_truncate_title_length_le (v : Val) (maxLength : ℕ) :
    (truncate_title v maxLength).length ≤ maxLength := by
  unfold truncate_title
  split
  · simp
  · dsimp only
    by_cases h1 : (strTrim (valToStr v)).length ≤ maxLength
    · rwa [if_pos h1]
    · rw [if_neg h1]
      by_cases h2 : maxLength <
          (if 3 ≤ maxLength then String.mk ((strTrim (valToStr v)).toList.take (maxLength - 3)) ++ "..."
           else String.mk ((strTrim (valToStr v)).toList.take maxLength)).length
      · rw [if_pos h2]
        show (List.take maxLength _).length ≤ maxLength
        simp [List.length_take]
      · rw [if_neg h2]
        exact Nat.le_of_not_lt h2

/-! ## Lemmas on the stable cost sort and the SKU dedup -/

/-- The sort order: ascending coerced cost. -/
def costLe (a b : IRow) : Prop := costOf a.2 ≤ costOf b.2

/-- Boolean cost-equality test on an indexed row. -/
def costIs (q : ℚ) (p : IRow) : Bool := costOf p.2 = q

theorem insertByCost_cons (x y : IRow) (ys : List IRow) :
    insertByCost x (y :: ys) =
      if costOf y.2 < costOf x.2 then y :: insertByCost x ys else x :: y :: ys := rfl

theorem sortByCost_cons (x : IRow) (xs : List IRow) :
    sortByCost (x :: xs) = insertByCost x (sortByCost xs) := rfl

theorem insertByCost_ne_nil (x : IRow) (l : List IRow) : insertByCost x l ≠ [] := by
  cases l with
  | nil => simp [insertByCost]
  | cons y ys => unfold insertByCost; split <;> simp

theorem sortByCost_eq_nil (l : List IRow) (h : sortByCost l = []) : l = [] := by
  cases l with
  | nil => rfl
  | cons x xs => exact absurd h (insertByCost_ne_nil _ _)

theorem length_insertByCost (x : IRow) (l : List IRow) :
    (insertByCost x l).length = l.length + 1 := by
  induction l with
  | nil => rfl
  | cons y ys ih => unfold insertByCost; split <;> simp [ih]

theorem length_sortByCost (l : List IRow) : (sortByCost l).length = l.length := by
  induction l with
  | nil => rfl
  | cons x xs ih => simp [sortByCost, length_insertByCost, ih]

theorem mem_insertByCost (y x : IRow) (l : List IRow) :
    y ∈ insertByCost x l ↔ y = x ∨ y ∈ l := by
  induction l with
  | nil => simp [insertByCost]
  | cons z zs ih =>
      unfold insertByCost
      split
      · simp [ih]; tauto
      · simp

theorem mem_sortByCost (y : IRow) (l : List IRow) : y ∈ sortByCost l ↔ y ∈ l := by
  induction l with
  | nil => simp [sortByCost]
  | cons x xs ih => simp [sortByCost, mem_insertByCost, ih]

theorem sorted_insertByCost (x : IRow) (l : List IRow) (h : l.Pairwise costLe) :
    (insertByCost x l).Pairwise costLe := by
  induction l with
  | nil => simp [insertByCost, List.Pairwise.nil]
  | cons y ys ih =>
      rcases List.pairwise_cons.mp h with ⟨hy, hys⟩
      unfold insertByCost
      split
      · next hlt =>
        refine List.pairwise_cons.mpr ⟨?_, ih hys⟩
        intro z hz
        rcases (mem_insertByCost z x ys).mp hz with h' | h'
        · exact h' ▸ le_of_lt hlt
        · exact hy z h'
      · next hge =>
        have hxy : costLe x y := le_of_not_lt hge
        refine List.pairwise_cons.mpr ⟨?_, h⟩
        intro z hz
        rcases List.mem_cons.mp hz with h' | h'
        · exact h' ▸ hxy
        · exact le_trans hxy (hy z h')

theorem sorted_sortByCost (l : List IRow) : (sortByCost l).Pairwise costLe := by
  induction l with
  | nil => simp [sortByCost]
  | cons x xs ih => exact sorted_insertByCost x _ ih

theorem insertByCost_eq_cons (x : IRow) (l : List IRow)
    (h : ∀ z ∈ l, ¬ costOf z.2 < costOf x.2) : insertByCost x l = x :: l := by
  cases l with
  | nil => rfl
  | cons y ys =>
      unfold insertByCost
      rw [if_neg (h y (List.mem_cons_self _ _))]

theorem filter_insertByCost (p : IRow → Bool) (x : IRow) (l : List IRow)
    (hs : l.Pairwise costLe) :
    (insertByCost x l).filter p =
      if p x then insertByCost x (l.filter p) else l.filter p := by
  induction l with
  | nil =>
      by_cases hpx : p x = true <;> simp [insertByCost, List.filter, hpx]
  | cons y ys ih =>
      rcases List.pairwise_cons.mp hs with ⟨hy, hys⟩
      rw [insertByCost_cons]
      by_cases hlt : costOf y.2 < costOf x.2
      · rw [if_pos hlt]
        by_cases hpy : p y = true
        · rw [List.filter_cons_of_pos hpy, ih hys]
          by_cases hpx : p x = true
          · rw [if_pos hpx, if_pos hpx, List.filter_cons_of_pos hpy,
              insertByCost_cons, if_pos hlt]
          · rw [if_neg hpx, if_neg hpx, List.filter_cons_of_pos hpy]
        · rw [List.filter_cons_of_neg hpy, ih hys]
          by_cases hpx : p x = true
          · rw [if_pos hpx, if_pos hpx, List.filter_cons_of_neg hpy]
          · rw [if_neg hpx, if_neg hpx, List.filter_cons_of_neg hpy]
      · rw [if_neg hlt]
        by_cases hpx : p x = true
        · rw [List.filter_cons_of_pos hpx, if_pos hpx]
          have hall : ∀ z ∈ (y :: ys).filter p, ¬ costOf z.2 < costOf x.2 := by
            intro z hz
            rcases List.mem_cons.mp (List.mem_of_mem_filter hz) with h' | h'
            · exact h' ▸ hlt
            · intro hlt'
              exact hlt (lt_of_le_of_lt (hy z h') hlt')
          rw [insertByCost_eq_cons x _ hall]
        · rw [List.filter_cons_of_neg hpx, if_neg hpx]

theorem filter_sortByCost (p : IRow → Bool) (l : List IRow) :
    (sortByCost l).filter p = sortByCost (l.filter p) := by
  induction l with
  | nil => rfl
  | cons x xs ih =>
      rw [sortByCost_cons, filter_insertByCost p x _ (sorted_sortByCost xs), ih]
      by_cases hpx : p x = true
      · rw [if_pos hpx, List.filter_cons_of_pos hpx, sortByCost_cons]
      · rw [if_neg hpx, List.filter_cons_of_neg hpx]

theorem map_insertByCost (u : IRow → IRow) (x : IRow) (l : List IRow)
    (hx : costOf (u x).2 = costOf x.2) (hl : ∀ y ∈ l, costOf (u y).2 = costOf y.2) :
    (insertByCost x l).map u = insertByCost (u x) (l.map u) := by
  induction l with
  | nil => rfl
  | cons y ys ih =>
      have hy : costOf (u y).2 = costOf y.2 := hl y (List.mem_cons_self _ _)
      have hys : ∀ z ∈ ys, costOf (u z).2 = costOf z.2 :=
        fun z hz => hl z (List.mem_cons_of_mem _ hz)
      rw [insertByCost_cons]
      by_cases hlt : costOf y.2 < costOf x.2
      · rw [if_pos hlt, List.map_cons, ih hys, List.map_cons, insertByCost_cons,
          if_pos (by rw [hy, hx]; exact hlt)]
      · rw [if_neg hlt, List.map_cons, List.map_cons, insertByCost_cons,
          if_neg (by rw [hy, hx]; exact hlt)]

theorem map_sortByCost (u : IRow → IRow) (l : List IRow)
    (hl : ∀ y ∈ l, costOf (u y).2 = costOf y.2) :
    (sortByCost l).map u = sortByCost (l.map u) := by
  induction l with
  | nil => rfl
  | cons x xs ih =>
      have hx : costOf (u x).2 = costOf x.2 := hl x (List.mem_cons_self _ _)
      have hxs : ∀ z ∈ xs, costOf (u z).2 = costOf z.2 :=
        fun z hz => hl z (List.mem_cons_of_mem _ hz)
      rw [sortByCost_cons, map_insertByCost u x _ hx
        (fun y hy => hxs y ((mem_sortByCost y xs).mp hy)), ih hxs, List.map_cons, sortByCost_cons]

/-- The head of the stable cost sort is the earliest row attaining the
minimum cost: it is found by `find?` on the unsorted list, and its cost
bounds every cost in the list. -/
theorem sortByCost_head_min (l : List IRow) (h : IRow) (t : List IRow)
    (he : sortByCost l = h :: t) :
    l.find? (costIs (costOf h.2)) = some h ∧ ∀ z ∈ l, costOf h.2 ≤ costOf z.2 := by
  induction l generalizing h t with
  | nil => simp [sortByCost] at he
  | cons x xs ih =>
      rcases hxs : sortByCost xs with _ | ⟨h', t'⟩
      · have hx : xs = [] := sortByCost_eq_nil _ hxs
        subst hx
        have : sortByCost [x] = [x] := rfl
        rw [this] at he
        cases he
        constructor
        · rw [List.find?_cons_of_pos _ (by simp [costIs])]
        · intro z hz
          rcases List.mem_cons.mp hz with h' | h'
          · exact h' ▸ le_refl _
          · cases h'
      · have he' : insertByCost x (h' :: t') = h :: t := by
          have : sortByCost (x :: xs) = insertByCost x (sortByCost xs) := rfl
          rw [this, hxs] at he
          exact he
        rcases ih h' t' hxs with ⟨ihfind, ihmin⟩
        rw [insertByCost_cons] at he'
        by_cases hlt : costOf h'.2 < costOf x.2
        · rw [if_pos hlt] at he'
          have hh : h = h' := by cases he'; rfl
          subst hh
          constructor
          · have hne : ¬ (costIs (costOf h.2) x = true) := by
              simp only [costIs, decide_eq_true_eq]
              exact ne_of_gt hlt
            rw [List.find?_cons_of_neg _ hne, ihfind]
          · intro z hz
            rcases List.mem_cons.mp hz with h'' | h''
            · exact h'' ▸ le_of_lt hlt
            · exact ihmin z h''
        · rw [if_neg hlt] at he'
          have hh : h = x := by cases he'; rfl
          subst hh
          have hxh' : costOf h.2 ≤ costOf h'.2 := le_of_not_lt hlt
          constructor
          · have hpos : costIs (costOf h.2) h = true := by
              simp [costIs]
            rw [List.find?_cons_of_pos _ hpos]
          · intro z hz
            rcases List.mem_cons.mp hz with h'' | h''
            · exact h'' ▸ le_refl _
            · have hz' : costOf h'.2 ≤ costOf z.2 := by
                have hmem : z ∈ sortByCost xs := (mem_sortByCost z xs).mpr h''
                rw [hxs] at hmem
                rcases List.mem_cons.mp hmem with h3 | h3
                · exact h3 ▸ le_refl _
                · have h4 : costLe h' z :=
                    List.rel_of_pairwise_cons (hxs ▸ sorted_sortByCost xs) h3
                  exact h4
              exact le_trans hxh' hz'

/-- Filtering the SKU-dedup result by a single SKU keeps at most the
first row of that SKU. -/
theorem filter_dedupBySKUAux (s : Val) (seen : List Val) (l : List IRow) :
    (dedupBySKUAux seen l).filter (skuIs s) =
      if s ∈ seen then [] else (l.filter (skuIs s)).take 1 := by
  induction l generalizing seen with
  | nil => split <;> rfl
  | cons r rs ih =>
      unfold dedupBySKUAux
      by_cases hseen : skuOf r.2 ∈ seen
      · rw [if_pos hseen, ih]
        by_cases hr : skuOf r.2 = s
        · rw [if_pos (hr ▸ hseen), if_pos (hr ▸ hseen)]
        · have hfr : ¬ (skuIs s r = true) := by simp [skuIs, hr]
          rw [List.filter_cons_of_neg hfr]
      · rw [if_neg hseen]
        by_cases hr : skuOf r.2 = s
        · have hfr : skuIs s r = true := by simp [skuIs, hr]
          rw [List.filter_cons_of_pos hfr, ih]
          have hsmem : s ∈ skuOf r.2 :: seen := by simp [hr]
          rw [if_pos hsmem, if_neg (hr ▸ hseen), List.filter_cons_of_pos hfr]
          rfl
        · have hfr : ¬ (skuIs s r = true) := by simp [skuIs, hr]
          rw [List.filter_cons_of_neg hfr, ih, List.filter_cons_of_neg hfr]
          by_cases hss : s ∈ seen
          · rw [if_pos hss, if_pos (List.mem_cons_of_mem _ hss)]
          · have hns : s ∉ skuOf r.2 :: seen := by
              intro hmem
              rcases List.mem_cons.mp hmem with h' | h'
              · exact hr h'.symm
              · exact hss h'
            rw [if_neg hss, if_neg hns]

/-! ## Lemmas on image backfill and the working table -/

theorem eq_of_fst_eq_of_nodup (l : List IRow) (hnd : (l.map Prod.fst).Nodup)
    {a b : IRow} (ha : a ∈ l) (hb : b ∈ l) (hab : a.1 = b.1) : a = b := by
  induction l with
  | nil => cases ha
  | cons x xs ih =>
      rcases List.nodup_cons.mp hnd with ⟨hx, hxs⟩
      rcases List.mem_cons.mp ha with ha' | ha' <;> rcases List.mem_cons.mp hb with hb' | hb'
      · exact ha'.trans hb'.symm
      · exfalso
        apply hx
        have hxb : x.1 = b.1 := by rw [← ha']; exact hab
        rw [hxb]
        exact List.mem_map_of_mem Prod.fst hb'
      · exfalso
        apply hx
        have hxa : x.1 = a.1 := by rw [← hb']; exact hab.symm
        rw [hxa]
        exact List.mem_map_of_mem Prod.fst ha'
      · exact ih hxs ha' hb'

theorem getCell_adoptFor_ne (removed : List IRow) (f c : String) (kept : Row)
    (h : c ≠ f) : getCell (adoptFor removed f kept) c = getCell kept c := by
  unfold adoptFor
  split
  · split
    · exact getCell_setCell_ne _ _ _ _ h
    · rfl
  · rfl

theorem getCell_backfillKept_not_mem (removed : List IRow) (found : List String)
    (kept : Row) (c : String) (h : c ∉ found) :
    getCell (backfillKept removed found kept) c = getCell kept c := by
  unfold backfillKept
  induction found generalizing kept with
  | nil => rfl
  | cons f fs ih =>
      rw [List.foldl_cons, ih _ (fun e => h (List.mem_cons_of_mem _ e))]
      exact getCell_adoptFor_ne _ _ _ _ (fun e => h (e ▸ List.mem_cons_self _ _))

/-- Function `preserveRow` either leaves the row unchanged, or (when the row is the
kept head of its duplicate group) backfills that same row. -/
theorem preserveRow_cases (found : List String) (rows : List IRow) (p : IRow)
    (hnd : (rows.map Prod.fst).Nodup) (hp : p ∈ rows) :
    preserveRow found rows p = p ∨
      ∃ removed, sortByCost (rows.filter (skuIs (skuOf p.2))) = p :: removed ∧
        preserveRow found rows p = (p.1, backfillKept removed found p.2) := by
  unfold preserveRow
  dsimp only
  split
  · rcases hsort : sortByCost (rows.filter (skuIs (skuOf p.2))) with _ | ⟨kept, removed⟩
    · exact Or.inl rfl
    · dsimp only
      by_cases hk : kept.1 = p.1
      · have hkeptmem : kept ∈ rows := by
          have h1 : kept ∈ sortByCost (rows.filter (skuIs (skuOf p.2))) := by
            rw [hsort]; exact List.mem_cons_self _ _
          exact List.mem_of_mem_filter ((mem_sortByCost _ _).mp h1)
        have hkp : kept = p := eq_of_fst_eq_of_nodup rows hnd hkeptmem hp hk
        subst hkp
        rw [if_pos rfl]
        exact Or.inr ⟨removed, rfl, rfl⟩
      · rw [if_neg hk]
        exact Or.inl rfl
  · exact Or.inl rfl

theorem preserveRow_fst (found : List String) (rows : List IRow) (p : IRow) :
    (preserveRow found rows p).1 = p.1 := by
  unfold preserveRow
  dsimp only
  split
  · split
    · rfl
    · split <;> rfl
  · rfl

theorem preserveRow_getCell_not_mem (found : List String) (rows : List IRow) (p : IRow)
    (c : String) (hc : c ∉ found)
    (hnd : (rows.map Prod.fst).Nodup) (hp : p ∈ rows) :
    getCell (preserveRow found rows p).2 c = getCell p.2 c := by
  rcases preserveRow_cases found rows p hnd hp with h | ⟨removed, _, h⟩
  · rw [h]
  · rw [h]
    exact getCell_backfillKept_not_mem _ _ _ _ hc

theorem SKU_not_mem_imageFields : SKU ∉ imageFields := by decide

theorem COST_not_mem_imageFields : COST ∉ imageFields := by decide

theorem preserveRow_skuOf (cols : List String) (rows : List IRow) (p : IRow)
    (hnd : (rows.map Prod.fst).Nodup) (hp : p ∈ rows) :
    skuOf (preserveRow (imageFields.filter (fun f => f ∈ cols)) rows p).2 = skuOf p.2 := by
  unfold skuOf
  rw [preserveRow_getCell_not_mem _ _ _ _
    (fun e => SKU_not_mem_imageFields (List.mem_of_mem_filter e)) hnd hp]

theorem preserveRow_costOf (cols : List String) (rows : List IRow) (p : IRow)
    (hnd : (rows.map Prod.fst).Nodup) (hp : p ∈ rows) :
    costOf (preserveRow (imageFields.filter (fun f => f ∈ cols)) rows p).2 = costOf p.2 := by
  unfold costOf
  rw [preserveRow_getCell_not_mem _ _ _ _
    (fun e => COST_not_mem_imageFields (List.mem_of_mem_filter e)) hnd hp]

/-! ## Lemmas on the indexed working table -/

theorem pairwise_fst_lt_zip (ns : List ℕ) (l : List Row) (h : ns.Pairwise (· < ·)) :
    (ns.zip l).Pairwise (fun a b : IRow => a.1 < b.1) := by
  induction ns generalizing l with
  | nil => simp
  | cons n ns ih =>
      cases l with
      | nil => simp
      | cons x xs =>
          rcases List.pairwise_cons.mp h with ⟨hn, hns⟩
          refine List.pairwise_cons.mpr ⟨?_, ih xs hns⟩
          intro z hz
          exact hn z.1 (List.of_mem_zip hz).1

theorem pairwise_fst_lt_indexRows (rows : List Row) :
    (indexRows rows).Pairwise (fun a b : IRow => a.1 < b.1) :=
  pairwise_fst_lt_zip _ _ (List.pairwise_lt_range _)

theorem pairwise_fst_lt_mergeWorking (df : DF) :
    (mergeWorking df).Pairwise (fun a b : IRow => a.1 < b.1) :=
  List.Pairwise.filter _ (pairwise_fst_lt_indexRows _)

theorem nodup_fst_of_pairwise_lt (l : List IRow)
    (h : l.Pairwise (fun a b : IRow => a.1 < b.1)) : (l.map Prod.fst).Nodup :=
  (List.pairwise_map.mpr (h.imp (fun hab => Nat.ne_of_lt hab)))

theorem nodup_fst_mergeWorking (df : DF) : ((mergeWorking df).map Prod.fst).Nodup :=
  nodup_fst_of_pairwise_lt _ (pairwise_fst_lt_mergeWorking df)

/-! ## The merge pipeline, claim-level lemmas -/

/-- The parsed cost of an *input* row: the composition of `astype(str)`,
comma stripping and `pd.to_numeric` applied to its raw cost cell. -/
def inputCostParse (r : Row) : Option ℚ :=
  (getCell r COST).bind (fun v => toNumericStr (stripCommas (valToStr v)))

theorem SKU_ne_COST : SKU ≠ COST := by decide

theorem skuOf_coerceRow (r : Row) :
    skuOf (mapRowCol COST costCellCoerce r) = skuOf r := by
  unfold skuOf
  rw [getCell_mapRowCol, if_neg SKU_ne_COST]

theorem hasNumCost_coerceRow (r : Row) :
    hasNumCost (mapRowCol COST costCellCoerce r) = (inputCostParse r).isSome := by
  unfold hasNumCost inputCostParse
  rw [getCell_mapRowCol, if_pos rfl]
  cases hg : getCell r COST with
  | none => rfl
  | some v =>
      cases hp : toNumericStr (stripCommas (valToStr v)) <;>
        simp [costCellCoerce, hp]

theorem costOf_coerceRow (r : Row) :
    costOf (mapRowCol COST costCellCoerce r) = (inputCostParse r).getD 0 := by
  unfold costOf inputCostParse
  rw [getCell_mapRowCol, if_pos rfl]
  cases hg : getCell r COST with
  | none => rfl
  | some v =>
      cases hp : toNumericStr (stripCommas (valToStr v)) <;>
        simp [costCellCoerce, hp]

theorem indexRows_map (rows : List Row) (f : Row → Row) :
    indexRows (rows.map f) = (indexRows rows).map (fun p => (p.1, f p.2)) := by
  unfold indexRows
  rw [List.length_map, List.zip_map_right]
  exact List.map_congr_left (fun p _ => rfl)

/-- The working table is the coercion image of the input rows whose raw
cost parses as numeric. -/
theorem mergeWorking_eq (df : DF) :
    mergeWorking df =
      (((indexRows df.rows).filter (fun p => (inputCostParse p.2).isSome)).map
        (fun p => (p.1, mapRowCol COST costCellCoerce p.2))) := by
  unfold mergeWorking
  have h1 : (coerceCostDF df).rows = df.rows.map (mapRowCol COST costCellCoerce) := rfl
  rw [h1, indexRows_map, List.filter_map]
  congr 1
  exact List.filter_congr (fun p _ => hasNumCost_coerceRow p.2)

/-- The rows of the final table with a given SKU: the head of the
cost-sorted group, backfilled. -/
theorem finalRows_filter_eq (df : DF) (s : Val) (hs : SKU ∈ df.cols) (hc : COST ∈ df.cols) :
    (find_and_remove_duplicates df).finalRows.filter (skuIs s) =
      ((sortByCost ((mergeWorking df).filter (skuIs s))).map
        (preserveRow (imageFields.filter (fun f => f ∈ df.cols)) (mergeWorking df))).take 1 := by
  have hW := nodup_fst_mergeWorking df
  have hu_cost : ∀ y ∈ mergeWorking df,
      costOf (preserveRow (imageFields.filter (fun f => f ∈ df.cols)) (mergeWorking df) y).2 =
        costOf y.2 :=
    fun y hy => preserveRow_costOf df.cols (mergeWorking df) y hW hy
  have hu_sku : ∀ y ∈ mergeWorking df,
      skuIs s (preserveRow (imageFields.filter (fun f => f ∈ df.cols)) (mergeWorking df) y) =
        skuIs s y := by
    intro y hy
    simp [skuIs, preserveRow_skuOf df.cols (mergeWorking df) y hW hy]
  have h1 : (find_and_remove_duplicates df).finalRows =
      dedupBySKU (sortByCost ((mergeWorking df).map
        (preserveRow (imageFields.filter (fun f => f ∈ df.cols)) (mergeWorking df)))) := by
    unfold find_and_remove_duplicates
    rw [if_pos ⟨hs, hc⟩]
    rfl
  rw [h1]
  have h2 : dedupBySKU (sortByCost ((mergeWorking df).map
      (preserveRow (imageFields.filter (fun f => f ∈ df.cols)) (mergeWorking df)))) =
      dedupBySKUAux [] (sortByCost ((mergeWorking df).map
        (preserveRow (imageFields.filter (fun f => f ∈ df.cols)) (mergeWorking df)))) := rfl
  rw [h2, filter_dedupBySKUAux s [] _, if_neg (List.not_mem_nil s), filter_sortByCost]
  have h3 : ((mergeWorking df).map
      (preserveRow (imageFields.filter (fun f => f ∈ df.cols)) (mergeWorking df))).filter
        (skuIs s) =
      ((mergeWorking df).filter (skuIs s)).map
        (preserveRow (imageFields.filter (fun f => f ∈ df.cols)) (mergeWorking df)) := by
    rw [List.filter_map]
    congr 1
    exact List.filter_congr (fun x hx => hu_sku x hx)
  rw [h3, ← map_sortByCost _ _ (fun y hy => hu_cost y (List.mem_of_mem_filter hy))]

/-- On a list with strictly increasing indices, the row found by `find?`
has the least index among rows satisfying the predicate. -/
theorem find?_min_fst (l : List IRow) (hpw : l.Pairwise (fun a b : IRow => a.1 < b.1))
    (p : IRow → Bool) (h z : IRow) (hf : l.find? p = some h) (hz : z ∈ l)
    (hpz : p z = true) : h.1 ≤ z.1 := by
  induction l with
  | nil => cases hz
  | cons a t ih =>
      rcases List.pairwise_cons.mp hpw with ⟨ha, ht⟩
      by_cases hpa : p a = true
      · rw [List.find?_cons_of_pos _ hpa] at hf
        cases hf
        rcases List.mem_cons.mp hz with h' | h'
        · exact h' ▸ le_refl _
        · exact le_of_lt (ha z h')
      · rw [List.find?_cons_of_neg _ hpa] at hf
        rcases List.mem_cons.mp hz with h' | h'
        · exact absurd (h' ▸ hpz) hpa
        · exact ih ht hf h'

/-! ## C1: dedup keeps exactly one, minimum-cost, earliest row per SKU -/

/-- Claim C1 (code-bug evidence): on a cost tie the code does not
guarantee the claimed — and spec-mandated (§4.5 step 3, §5) — stable
tie-break.  The kept row is the head of
`sort_values('Cost per item').drop_duplicates('Variant SKU', keep='first')`
(processor.py:233), and `sort_values` is called with the pandas default
`kind='quicksort'`, which promises no order on equal keys; the code
never requests `kind='stable'`/`'mergesort'`.  On `dfTie` the two rows
share SKU `X1` and the same coerced cost, *both* arrangements of the
working table are ascending by cost — so the sort key the code supplies
does not determine its output — and the two possible keeps are distinct
rows.  The claim's earliest-original-row tie-break is therefore the
spec's intent, not a property the code delivers. -/
theorem C1_tie_cost_underdetermined :
    (SKU ∈ dfTie.cols ∧ COST ∈ dfTie.cols) ∧
    mergeWorking dfTie = [tieA, tieB] ∧
    (skuOf tieA.2 = .vstr "X1" ∧ skuOf tieB.2 = .vstr "X1") ∧
    (costOf tieA.2 = costOf tieB.2 ∧ tieA ≠ tieB) ∧
    (costOf tieA.2 ≤ costOf tieB.2 ∧ costOf tieB.2 ≤ costOf tieA.2) ∧
    dedupBySKU [tieA, tieB] = [tieA] ∧
    dedupBySKU [tieB, tieA] = [tieB] := by
  refine ⟨⟨by decide, by decide⟩, by decide, ⟨by decide, by decide⟩,
    ⟨by decide, by decide⟩, ⟨by decide, by decide⟩, by decide, by decide⟩

/-- Full pipeline behavior under the model's deterministic tie order:
when the combined table has the SKU and cost columns, the merge output
has at most one row per SKU value; and for every SKU with at least one
input row whose cost parses as numeric, the output has exactly one row
for it, carried by an input row attaining the minimal parsed cost.  The
final stability conjunct (least original index on ties) holds of the
model's stable `sortByCost` only — see `C1_tie_cost_underdetermined`:
the code's unstable sort does not guarantee it. -/
theorem dedup_min_cost_model (df : DF) (s : Val)
    (hs : SKU ∈ df.cols) (hc : COST ∈ df.cols) :
    ((find_and_remove_duplicates df).finalRows.filter (skuIs s)).length ≤ 1 ∧
    ((∃ p ∈ indexRows df.rows, skuOf p.2 = s ∧ (inputCostParse p.2).isSome) →
      ∃ i r₀ q₀ r',
        (i, r₀) ∈ indexRows df.rows ∧ skuOf r₀ = s ∧ inputCostParse r₀ = some q₀ ∧
        (find_and_remove_duplicates df).finalRows.filter (skuIs s) = [(i, r')] ∧
        costOf r' = q₀ ∧
        (∀ p ∈ indexRows df.rows, skuOf p.2 = s →
          ∀ q, inputCostParse p.2 = some q → q₀ ≤ q) ∧
        (∀ p ∈ indexRows df.rows, skuOf p.2 = s → inputCostParse p.2 = some q₀ → i ≤ p.1)) := by
  have hmaster := finalRows_filter_eq df s hs hc
  have hW := nodup_fst_mergeWorking df
  have hWeq := mergeWorking_eq df
  constructor
  · rw [hmaster, List.length_take]
    exact Nat.min_le_left _ _
  · rintro ⟨pw, hpwmem, hpwsku, hpwsome⟩
    -- the image of an input row in the working table
    have hcf_mem : ∀ p ∈ indexRows df.rows, (inputCostParse p.2).isSome →
        (p.1, mapRowCol COST costCellCoerce p.2) ∈ mergeWorking df := by
      intro p hp hsome
      rw [hWeq]
      exact List.mem_map_of_mem _ (List.mem_filter.mpr ⟨hp, hsome⟩)
    have hcf_sku : ∀ p : IRow, skuOf p.2 = s →
        skuIs s (p.1, mapRowCol COST costCellCoerce p.2) = true := by
      intro p hsku
      simp [skuIs, skuOf_coerceRow, hsku]
    have hcfG : ∀ p ∈ indexRows df.rows, skuOf p.2 = s → (inputCostParse p.2).isSome →
        (p.1, mapRowCol COST costCellCoerce p.2) ∈ (mergeWorking df).filter (skuIs s) := by
      intro p hp hsku hsome
      exact List.mem_filter.mpr ⟨hcf_mem p hp hsome, hcf_sku p hsku⟩
    have hGne : (mergeWorking df).filter (skuIs s) ≠ [] := by
      intro hnil
      have := hcfG pw hpwmem hpwsku hpwsome
      rw [hnil] at this
      cases this
    rcases hsort : sortByCost ((mergeWorking df).filter (skuIs s)) with _ | ⟨h, t⟩
    · exact absurd (sortByCost_eq_nil _ hsort) hGne
    rcases sortByCost_head_min _ h t hsort with ⟨hfind, hmin⟩
    have hhG : h ∈ (mergeWorking df).filter (skuIs s) := by
      have : h ∈ sortByCost ((mergeWorking df).filter (skuIs s)) := by
        rw [hsort]; exact List.mem_cons_self _ _
      exact (mem_sortByCost _ _).mp this
    have hhW : h ∈ mergeWorking df := List.mem_of_mem_filter hhG
    have hhsku : skuOf h.2 = s := by
      have := (List.mem_filter.mp hhG).2
      simpa [skuIs] using this
    -- decompose h as the coercion image of an input row
    rw [hWeq] at hhW
    rcases List.mem_map.mp hhW with ⟨p₀, hp₀X, hcf⟩
    rcases List.mem_filter.mp hp₀X with ⟨hp₀mem, hp₀someB⟩
    rcases Option.isSome_iff_exists.mp hp₀someB with ⟨q₀, hq₀⟩
    have hcost_h : costOf h.2 = q₀ := by
      rw [← hcf]
      show costOf (mapRowCol COST costCellCoerce p₀.2) = q₀
      rw [costOf_coerceRow, hq₀]
      rfl
    have hsku_p₀ : skuOf p₀.2 = s := by
      rw [← hcf] at hhsku
      rwa [show skuOf (p₀.1, mapRowCol COST costCellCoerce p₀.2).2 = skuOf p₀.2 from
        skuOf_coerceRow p₀.2] at hhsku
    have hout : (find_and_remove_duplicates df).finalRows.filter (skuIs s) =
        [preserveRow (imageFields.filter (fun f => f ∈ df.cols)) (mergeWorking df) h] := by
      rw [hmaster, hsort]
      rfl
    have hfst : (preserveRow (imageFields.filter (fun f => f ∈ df.cols))
        (mergeWorking df) h).1 = p₀.1 := by
      rw [preserveRow_fst, ← hcf]
    refine ⟨p₀.1, p₀.2, q₀, (preserveRow (imageFields.filter (fun f => f ∈ df.cols))
      (mergeWorking df) h).2, hp₀mem, hsku_p₀, hq₀, ?_, ?_, ?_, ?_⟩
    · rw [hout]
      have heta : preserveRow (imageFields.filter (fun f => f ∈ df.cols)) (mergeWorking df) h =
          (p₀.1, (preserveRow (imageFields.filter (fun f => f ∈ df.cols))
            (mergeWorking df) h).2) := by
        rw [← hfst]
      rw [heta]
    · rw [preserveRow_costOf df.cols _ h hW ((hWeq ▸ hhW : h ∈ mergeWorking df)), hcost_h]
    · intro p hp hsku q hq
      have hG : (p.1, mapRowCol COST costCellCoerce p.2) ∈ (mergeWorking df).filter (skuIs s) :=
        hcfG p hp hsku (by rw [hq]; rfl)
      have := hmin _ hG
      rw [hcost_h] at this
      rwa [show costOf (p.1, mapRowCol COST costCellCoerce p.2).2 = q by
        rw [costOf_coerceRow p.2, hq]; rfl] at this
    · intro p hp hsku hq
      have hG : (p.1, mapRowCol COST costCellCoerce p.2) ∈ (mergeWorking df).filter (skuIs s) :=
        hcfG p hp hsku (by rw [hq]; rfl)
      have hpw : ((mergeWorking df).filter (skuIs s)).Pairwise
          (fun a b : IRow => a.1 < b.1) :=
        List.Pairwise.filter _ (pairwise_fst_lt_mergeWorking df)
      have hcosteq : costIs (costOf h.2) (p.1, mapRowCol COST costCellCoerce p.2) = true := by
        simp only [costIs, decide_eq_true_eq]
        rw [hcost_h]
        show costOf (mapRowCol COST costCellCoerce p.2) = q₀
        rw [costOf_coerceRow p.2, hq]
        rfl
      have := find?_min_fst _ hpw _ h _ hfind hG hcosteq
      have hh1 : h.1 = p₀.1 := by rw [← hcf]
      rw [hh1] at this
      exact this

/-! ## C5: image backfill from removed duplicates -/

theorem getCell_adoptFor_congr (removed : List IRow) (f : String) (k k' : Row)
    (h : getCell k f = getCell k' f) :
    getCell (adoptFor removed f k) f = getCell (adoptFor removed f k') f := by
  unfold adoptFor
  rw [h]
  split
  · split
    · rw [getCell_setCell_self, getCell_setCell_self]
    · exact h
  · exact h

theorem getCell_backfillKept_mem (removed : List IRow) (found : List String)
    (kept : Row) (f : String) (hmem : f ∈ found) (hnd : found.Nodup) :
    getCell (backfillKept removed found kept) f = getCell (adoptFor removed f kept) f := by
  induction found generalizing kept with
  | nil => cases hmem
  | cons g fs ih =>
      rcases List.nodup_cons.mp hnd with ⟨hg, hfs⟩
      have hstep : backfillKept removed (g :: fs) kept =
          backfillKept removed fs (adoptFor removed g kept) := rfl
      rw [hstep]
      by_cases hf : f ∈ fs
      · rw [ih _ hf hfs]
        have hgf : g ≠ f := fun e => hg (e ▸ hf)
        exact getCell_adoptFor_congr _ _ _ _ (getCell_adoptFor_ne _ _ _ _ (Ne.symm hgf))
      · have hfg : f = g := by
          rcases List.mem_cons.mp hmem with h' | h'
          · exact h'
          · exact absurd h' hf
        subst hfg
        exact getCell_backfillKept_not_mem _ _ _ _ hf

/-- Claim C5 (code-bug evidence): the backfill target and the final keep
are decided by two *independent* `sort_values('Cost per item')` calls —
the group-local sort inside `_preserve_images_from_duplicates`
(processor.py:281) and the whole-table
`sort_values(...).drop_duplicates(...)` (processor.py:233) — both with
the pandas default unstable `kind='quicksort'`.  On `dfTie5` the two
minimum-cost rows tie and both arrangements of the working table are
ascending by cost, so the two sorts may disagree on the head: under
group order `[tie5B, tie5A, tie5C]` the removed URL is backfilled into
`tie5B`'s row (the conjunct on `backfillKept`), while the keep under
table order `[tie5A, tie5B, tie5C]` is `tie5A`, whose image cell is
still the empty string — contradicting the claim's invariant that the
surviving row's image field is non-empty.  The invariant needs the two
sorts to agree on ties, which the code never requests (spec §5 demands
a stable sort precisely so that they agree). -/
theorem C5_backfill_tie_dependent :
    (SKU ∈ dfTie5.cols ∧ COST ∈ dfTie5.cols ∧ "Image Src" ∈ dfTie5.cols) ∧
    mergeWorking dfTie5 = [tie5A, tie5B, tie5C] ∧
    (costOf tie5A.2 = costOf tie5B.2 ∧ tie5A ≠ tie5B) ∧
    (costOf tie5A.2 ≤ costOf tie5B.2 ∧ costOf tie5B.2 ≤ costOf tie5A.2 ∧
      costOf tie5B.2 ≤ costOf tie5C.2) ∧
    isEmptyImage ((getCell tie5A.2 "Image Src").getD .vnan) = true ∧
    isEmptyImage ((getCell tie5B.2 "Image Src").getD .vnan) = true ∧
    isAdoptableImage ((getCell tie5C.2 "Image Src").getD (.vstr "")) = true ∧
    getCell (backfillKept [tie5A, tie5C] (imageFields.filter (fun g => g ∈ dfTie5.cols))
      tie5B.2) "Image Src" = some (.vstr "http://img/1.jpg") ∧
    dedupBySKU [tie5A, tie5B, tie5C] = [tie5A] ∧
    getCell tie5A.2 "Image Src" = some (.vstr "") := by
  refine ⟨⟨by decide, by decide, by decide⟩, by decide, ⟨by decide, by decide⟩,
    ⟨by decide, by decide, by decide⟩, by decide, by decide, by decide, by decide,
    by decide, by decide⟩

/-- Model-level backfill behavior, under the model's deterministic tie
order (both sorts realized by the same stable `sortByCost`): if the kept
(head) row of a SKU group has an empty/placeholder value in an
image-bearing field present in the table, and the removed rows contain a
row with an adoptable (non-empty, URL-shaped) value there, then the
final output row for that SKU carries exactly the first such adoptable
value, which is non-empty.  The code does not guarantee the premise
match between the two sorts on cost ties — see
`C5_backfill_tie_dependent`. -/
theorem image_backfill_model (df : DF) (s : Val) (f : String) (kept rr : IRow)
    (removed : List IRow)
    (hs : SKU ∈ df.cols) (hc : COST ∈ df.cols)
    (hf1 : f ∈ imageFields) (hf2 : f ∈ df.cols)
    (hsort : sortByCost ((mergeWorking df).filter (skuIs s)) = kept :: removed)
    (hempty : isEmptyImage ((getCell kept.2 f).getD .vnan) = true)
    (hfindr : removed.find?
      (fun q => isAdoptableImage ((getCell q.2 f).getD (.vstr ""))) = some rr) :
    ∃ r', (find_and_remove_duplicates df).finalRows.filter (skuIs s) = [(kept.1, r')] ∧
      getCell r' f = some ((getCell rr.2 f).getD (.vstr "")) ∧
      strTrim (valToStr ((getCell rr.2 f).getD (.vstr ""))) ≠ "" := by
  have hmaster := finalRows_filter_eq df s hs hc
  have hW := nodup_fst_mergeWorking df
  have hkG : kept ∈ (mergeWorking df).filter (skuIs s) := by
    have : kept ∈ sortByCost ((mergeWorking df).filter (skuIs s)) := by
      rw [hsort]; exact List.mem_cons_self _ _
    exact (mem_sortByCost _ _).mp this
  have hkW : kept ∈ mergeWorking df := List.mem_of_mem_filter hkG
  have hksku : skuOf kept.2 = s := by
    have := (List.mem_filter.mp hkG).2
    simpa [skuIs] using this
  have hrne : removed ≠ [] := by
    intro h
    rw [h] at hfindr
    cases hfindr
  -- compute the preserved kept row
  have hu : preserveRow (imageFields.filter (fun g => g ∈ df.cols)) (mergeWorking df) kept =
      (kept.1, backfillKept removed (imageFields.filter (fun g => g ∈ df.cols)) kept.2) := by
    unfold preserveRow
    dsimp only
    rw [hksku]
    have hlen : 1 < ((mergeWorking df).filter (skuIs s)).length := by
      have h1 : ((mergeWorking df).filter (skuIs s)).length = (kept :: removed).length := by
        rw [← hsort, length_sortByCost]
      rw [h1]
      cases removed with
      | nil => exact absurd rfl hrne
      | cons a b => simp [List.length_cons]
    rw [if_pos hlen, hsort]
    dsimp only
    rw [if_pos rfl]
  have hout : (find_and_remove_duplicates df).finalRows.filter (skuIs s) =
      [(kept.1, backfillKept removed (imageFields.filter (fun g => g ∈ df.cols)) kept.2)] := by
    rw [hmaster, hsort]
    show [preserveRow (imageFields.filter (fun g => g ∈ df.cols)) (mergeWorking df) kept] = _
    rw [hu]
  have hffound : f ∈ imageFields.filter (fun g => g ∈ df.cols) :=
    List.mem_filter.mpr ⟨hf1, by simp [hf2]⟩
  have hndfound : (imageFields.filter (fun g => g ∈ df.cols)).Nodup :=
    List.Nodup.filter _ (by decide)
  have hget : getCell (backfillKept removed (imageFields.filter (fun g => g ∈ df.cols)) kept.2) f =
      some ((getCell rr.2 f).getD (.vstr "")) := by
    rw [getCell_backfillKept_mem _ _ _ _ hffound hndfound]
    unfold adoptFor
    rw [if_pos hempty, hfindr, getCell_setCell_self]
  have hadopt : isAdoptableImage ((getCell rr.2 f).getD (.vstr "")) = true := by
    have h0 := List.find?_some hfindr
    exact h0
  have hne : strTrim (valToStr ((getCell rr.2 f).getD (.vstr ""))) ≠ "" := by
    have := hadopt
    unfold isAdoptableImage at this
    simp only [decide_eq_true_eq] at this
    exact this.2.1
  exact ⟨_, hout, hget, hne⟩

/-! ## C7: missing SKU or cost column makes the dedup a no-op -/

/-- Claim C7: when the concatenated table lacks the SKU column or the
cost column, `find_and_remove_duplicates` returns the table unchanged
(neither mutated nor re-rowed) with an empty removal list.  In the model
the function is total, so no exception can escape. -/
theorem C7_missing_columns_noop (df : DF) (h : ¬ (SKU ∈ df.cols ∧ COST ∈ df.cols)) :
    (find_and_remove_duplicates df).callerAfter = df ∧
    (find_and_remove_duplicates df).finalRows = indexRows df.rows ∧
    (find_and_remove_duplicates df).finalRows.map Prod.snd = df.rows ∧
    (find_and_remove_duplicates df).finalCols = df.cols ∧
    (find_and_remove_duplicates df).removals = [] := by
  have hsnd : (indexRows df.rows).map Prod.snd = df.rows := by
    unfold indexRows
    exact List.map_snd_zip _ _ (by rw [List.length_range])
  unfold find_and_remove_duplicates
  rw [if_neg h]
  exact ⟨rfl, rfl, hsnd, rfl, rfl⟩

/-- Witness for C7: a table with no `Variant SKU` column. -/
theorem C7_missing_columns_noop_witness :
    (¬ (SKU ∈ dfNoSku.cols ∧ COST ∈ dfNoSku.cols)) ∧
    ((find_and_remove_duplicates dfNoSku).callerAfter = dfNoSku ∧
      (find_and_remove_duplicates dfNoSku).finalRows = indexRows dfNoSku.rows ∧
      (find_and_remove_duplicates dfNoSku).finalRows.map Prod.snd = dfNoSku.rows ∧
      (find_and_remove_duplicates dfNoSku).finalCols = dfNoSku.cols ∧
      (find_and_remove_duplicates dfNoSku).removals = []) :=
  ⟨by decide, C7_missing_columns_noop dfNoSku (by decide)⟩

/-! ## C8: two-run determinism of the merge pass -/

/-- Claim C8: running the full merge-and-dedup pass twice on the same
input tables in the same order yields identical final tables and removal
reports.  The pass is a pure function of its inputs in the embedding —
the source runs single-threaded with no randomness or time dependence,
and every pandas operation it uses is deterministic — so equal inputs
give equal outputs. -/
theorem C8_two_run_determinism (dfs₁ dfs₂ : List DF) (h : dfs₁ = dfs₂) :
    mergeAndDedupPass dfs₁ = mergeAndDedupPass dfs₂ :=
  congrArg mergeAndDedupPass h

/-- Witness for C8: both runs on the concrete two-supplier scenario
agree. -/
theorem C8_two_run_determinism_witness :
    ([dfDedup] = [dfDedup]) ∧ mergeAndDedupPass [dfDedup] = mergeAndDedupPass [dfDedup] :=
  ⟨rfl, C8_two_run_determinism [dfDedup] [dfDedup] rfl⟩

/-! ## C3: normalization yields numbers, but not necessarily ≥ 0 -/

/-- Counterexample to C3 as stated: the raw cost `"-5"` survives
normalization as the numeric value −5, which is negative — the Normalizer
does not guarantee `≥ 0`. -/
theorem C3_counterexample :
    getCell ((normalize_dataframe_types dfNeg).rows.headD []) COST = some (.vnum (-5)) ∧
    ((-5 : ℚ) < 0) := by
  constructor
  · rfl
  · decide

theorem getCell_mapCells (r : Row) (g : String → Val → Val) (c : String) :
    getCell (r.map (fun p => (p.1, g p.1 p.2))) c = (getCell r c).map (g c) := by
  induction r with
  | nil => rfl
  | cons p r ih =>
      obtain ⟨k, w⟩ := p
      by_cases hk : k = c
      · subst hk
        simp [getCell]
      · simp [getCell, hk, ih]

/-- Claim C3, amended: after `normalize_dataframe_types` every cell of a
numeric canonical column is a number (never null/NaN); unparseable raw
values become 0.  The sign clause of the original claim fails (see the
counterexample): values may be negative. -/
theorem C3_amended_numeric_never_nan (df : DF) :
    ∀ r ∈ (normalize_dataframe_types df).rows, ∀ p ∈ r, p.1 ∈ numericCols →
      ∃ q : ℚ, p.2 = .vnum q := by
  intro r hr p hp hnum
  unfold normalize_dataframe_types at hr
  simp only [List.mem_map] at hr
  obtain ⟨r₀, _, hmap⟩ := hr
  subst hmap
  rcases List.mem_map.mp hp with ⟨p₀, _, hpe⟩
  have h2 : p.2 = normalizeCell p₀.1 p₀.2 := by rw [← hpe]
  have h1 : p.1 = p₀.1 := by rw [← hpe]
  rw [h2]
  unfold normalizeCell
  rw [if_pos (h1 ▸ hnum)]
  cases toNumericStr (stripCommas (valToStr p₀.2)) with
  | none => exact ⟨0, rfl⟩
  | some q => exact ⟨q, rfl⟩

/-- Witness for C3 (amended): the negative-cost table has a row whose
cost cell is in a numeric column, and the theorem applies. -/
theorem C3_amended_numeric_never_nan_witness :
    ([("Cost per item", Val.vnum (-5))] ∈ (normalize_dataframe_types dfNeg).rows ∧
      ("Cost per item", Val.vnum (-5)) ∈ ([("Cost per item", Val.vnum (-5))] : Row) ∧
      "Cost per item" ∈ numericCols) ∧
    (∃ q : ℚ, (Val.vnum (-5)) = .vnum q) :=
  ⟨⟨by decide, by decide, by decide⟩,
    C3_amended_numeric_never_nan dfNeg [("Cost per item", Val.vnum (-5))] (by decide)
      ("Cost per item", Val.vnum (-5)) (by decide) (by decide)⟩

/-! ## C2: catalog defaults overwrite explicitly mapped values -/

/-- Counterexample to C2 as stated: the mapping maps `Status` to a source
column holding `"draft"`, yet the resolved row carries `"active"` — the
defaults of `_add_default_values` are assigned unconditionally *after*
the mapping and overwrite the explicitly mapped value. -/
theorem C2_counterexample :
    getCell ((mergedSupplier rawStatus mapStatus "Sup").rows.headD []) "Status" =
      some (.vstr "active") ∧
    getCell ((applyMapping rawStatus mapStatus).rows.headD []) "Status" =
      some (.vstr "draft") ∧
    (Val.vstr "active" ≠ .vstr "draft") := by
  refine ⟨rfl, rfl, by decide⟩

/-- Claim C2, amended: in every resolved supplier table, each
catalog-default field holds its fixed default value unconditionally —
the defaults are stamped after the mapping and overwrite any explicitly
mapped value, rather than yielding to it. -/
theorem C2_amended_defaults_unconditional (raw : DF) (m : Mapping) (supplier : String) :
    ∀ r ∈ (mergedSupplier raw m supplier).rows, ∀ p ∈ defaultPairs,
      getCell r p.1 = some (.vstr p.2) := by
  intro r hr p hp
  unfold mergedSupplier normalize_dataframe_types at hr
  simp only [List.mem_map] at hr
  obtain ⟨r₁, hr₁, hmap⟩ := hr
  subst hmap
  rw [getCell_mapCells]
  have hdef : ∀ q ∈ defaultPairs, q.1 ∉ numericCols ∧ q.2 ∉ sentinelStrs := by decide
  unfold addDefaultValues at hr₁
  simp only [List.mem_map] at hr₁
  obtain ⟨r₀, _, hfold⟩ := hr₁
  have hkeys : ((("Vendor", supplier) :: defaultPairs).map Prod.fst).Nodup := by
    have : (("Vendor", supplier) :: defaultPairs).map Prod.fst =
        "Vendor" :: defaultPairs.map Prod.fst := rfl
    rw [this]
    refine List.nodup_cons.mpr ⟨?_, by decide⟩
    decide
  have hcell : getCell r₁ p.1 = some (.vstr p.2) := by
    rw [← hfold]
    exact getCell_foldl_setCellPairs_mem _ _ _ _ hkeys (List.mem_cons_of_mem _ hp)
  rw [hcell]
  have hnn := hdef p hp
  show some (normalizeCell p.1 (.vstr p.2)) = some (.vstr p.2)
  unfold normalizeCell
  rw [if_neg hnn.1]
  show some (Val.vstr (if valToStr (Val.vstr p.2) ∈ sentinelStrs then ""
      else valToStr (Val.vstr p.2))) =
    some (Val.vstr p.2)
  rw [show valToStr (Val.vstr p.2) = p.2 from rfl, if_neg hnn.2]

/-- Witness for C2 (amended): the `Status`-mapped table resolves with
`Status = "active"`. -/
theorem C2_amended_defaults_unconditional_witness :
    ((mergedSupplier rawStatus mapStatus "Sup").rows ≠ [] ∧
      ("Published", "true") ∈ defaultPairs) ∧
    getCell ((mergedSupplier rawStatus mapStatus "Sup").rows.headD []) "Published" =
      some (.vstr "true") := by
  refine ⟨⟨by decide, by decide⟩, ?_⟩
  have hmem : (mergedSupplier rawStatus mapStatus "Sup").rows.headD [] ∈
      (mergedSupplier rawStatus mapStatus "Sup").rows := by decide
  exact C2_amended_defaults_unconditional rawStatus mapStatus "Sup" _ hmem
    ("Published", "true") (by decide)

/-! ## C4: the quote index vs. the merge-path resolution -/

/-- Counterexample to C4 as stated: the quote path applies no field
parsers (nor tag synthesis, nor catalog defaults): a stock-status
quantity cell stays the raw string `"In Stock"` in the quote index while
the merge-path resolution turns it into the numeric sentinel 999. -/
theorem C4_counterexample :
    getCell ((buildQuote rawQty mapQty ["Variant Inventory Qty"] "S").rows.headD [])
      "Variant Inventory Qty" = some (.vstr "In Stock") ∧
    getCell ((mergedSupplier rawQty mapQty "S").rows.headD [])
      "Variant Inventory Qty" = some (.vnum 999) ∧
    (Val.vstr "In Stock" ≠ .vnum 999) :=
  ⟨rfl, rfl, by decide⟩

theorem getCell_map_keys (ks : List String) (h : String → Val) (f : String) :
    getCell (ks.map (fun k => (k, h k))) f = if f ∈ ks then some (h f) else none := by
  induction ks with
  | nil => simp [getCell]
  | cons k ks ih =>
      by_cases hk : k = f
      · subst hk
        simp [getCell]
      · rw [List.map_cons]
        show (if k = f then some (h k) else getCell (ks.map fun k => (k, h k)) f) = _
        rw [if_neg hk, ih]
        by_cases hf : f ∈ ks
        · rw [if_pos hf, if_pos (List.mem_cons_of_mem _ hf)]
        · have hnc : f ∉ k :: ks := by
            intro hmem
            rcases List.mem_cons.mp hmem with h' | h'
            · exact hk h'.symm
            · exact hf h'
          rw [if_neg hf, if_neg hnc]

theorem mapCol_rows_getCell (df : DF) (c : String) (g : Val → Val) (f : String)
    (h : f ≠ c) :
    (mapCol df c g).rows.map (fun r => getCell r f) = df.rows.map (fun r => getCell r f) := by
  unfold mapCol
  dsimp only
  rw [List.map_map]
  refine List.map_congr_left ?_
  intro r _
  show getCell (mapRowCol c g r) f = getCell r f
  rw [getCell_mapRowCol, if_neg h]

theorem applyTransformations_rows_getCell (df : DF) (f : String)
    (h1 : f ≠ "Variant Inventory Qty") (h2 : f ≠ "Variant Grams") (h3 : f ≠ "Title") :
    (applyTransformations df).rows.map (fun r => getCell r f) =
      df.rows.map (fun r => getCell r f) := by
  unfold applyTransformations
  dsimp only
  split
  · split
    · split
      · rw [mapCol_rows_getCell _ _ _ f h3, mapCol_rows_getCell _ _ _ f h2,
          mapCol_rows_getCell _ _ _ f h1]
      · rw [mapCol_rows_getCell _ _ _ f h2, mapCol_rows_getCell _ _ _ f h1]
    · split
      · rw [mapCol_rows_getCell _ _ _ f h3, mapCol_rows_getCell _ _ _ f h1]
      · rw [mapCol_rows_getCell _ _ _ f h1]
  · split
    · split
      · rw [mapCol_rows_getCell _ _ _ f h3, mapCol_rows_getCell _ _ _ f h2]
      · rw [mapCol_rows_getCell _ _ _ f h2]
    · split
      · rw [mapCol_rows_getCell _ _ _ f h3]
      · rfl

theorem addDefaultValues_rows_getCell (df : DF) (supplier : String) (f : String)
    (hvendor : f ≠ "Vendor") (hdef : f ∉ defaultPairs.map Prod.fst) :
    (addDefaultValues df supplier).rows.map (fun r => getCell r f) =
      df.rows.map (fun r => getCell r f) := by
  unfold addDefaultValues
  dsimp only
  rw [List.map_map]
  refine List.map_congr_left ?_
  intro r _
  show getCell ((("Vendor", supplier) :: defaultPairs).foldl
    (fun r p => setCell r p.1 (.vstr p.2)) r) f = getCell r f
  refine getCell_foldl_setCellPairs_not_mem _ _ _ ?_
  intro p hp
  rcases List.mem_cons.mp hp with h' | h'
  · rw [h']
    exact fun e => hvendor e.symm
  · exact fun e => hdef (e ▸ List.mem_map_of_mem Prod.fst h')

/-- After a Series assignment has established the row index, every
further column assignment of the quote build loop is a plain `setCell`
of its slice value. -/
theorem foldl_quoteStep_true (rawCols : List String) (m : Mapping) (r : Row) :
    ∀ (ks : List String) (acc : Row),
      ks.foldl (quoteStep rawCols m r) (acc, true) =
        (ks.foldl (fun a k => setCell a k (quoteCellVal rawCols m r k)) acc, true) := by
  intro ks
  induction ks with
  | nil => intro acc; rfl
  | cons k t ih =>
      intro acc
      rw [List.foldl_cons, List.foldl_cons]
      have hstep : quoteStep rawCols m r (acc, true) k =
          (setCell acc k (quoteCellVal rawCols m r k), true) := by
        unfold quoteStep quoteCellVal
        by_cases hk : quoteHasSeries rawCols m k = true
        · rw [if_pos hk, if_pos hk]
          rfl
        · rw [if_neg hk, if_neg hk]
      rw [hstep, ih]

/-- A column-copied canonical field ends the quote build loop holding its
source-column value, whatever scalar columns surround it. -/
theorem buildQuoteRow_getCell_series (rawCols : List String) (m : Mapping) (r : Row)
    (f src : String) (hlookup : m.lookup f = some src)
    (hser : quoteHasSeries rawCols m f = true) :
    ∀ (ks : List String) (acc : Row), f ∈ ks →
      getCell ((ks.foldl (quoteStep rawCols m r) (acc, false)).1) f =
        some ((getCell r src).getD .vnan) := by
  have hval : quoteCellVal rawCols m r f = (getCell r src).getD .vnan := by
    unfold quoteCellVal
    rw [if_pos hser, hlookup]
    rfl
  intro ks
  induction ks with
  | nil => intro acc hf; cases hf
  | cons k t ih =>
      intro acc hf
      rw [List.foldl_cons]
      by_cases hk : quoteHasSeries rawCols m k = true
      · have hstep : quoteStep rawCols m r (acc, false) k =
            (setCell (acc.map (fun p => (p.1, Val.vnan))) k (quoteCellVal rawCols m r k),
              true) := by
          unfold quoteStep quoteCellVal
          rw [if_pos hk, if_pos hk]
          rfl
        rw [hstep, foldl_quoteStep_true]
        by_cases hft : f ∈ t
        · rw [show ((t.foldl (fun a k => setCell a k (quoteCellVal rawCols m r k))
              (setCell (acc.map (fun p => (p.1, Val.vnan))) k (quoteCellVal rawCols m r k)),
              true) : Row × Bool).1 =
              t.foldl (fun a k => setCell a k (quoteCellVal rawCols m r k))
                (setCell (acc.map (fun p => (p.1, Val.vnan))) k
                  (quoteCellVal rawCols m r k)) from rfl]
          rw [getCell_foldl_setCellKeys t _ (quoteCellVal rawCols m r) f hft, hval]
        · have hfk : f = k := by
            rcases List.mem_cons.mp hf with h' | h'
            · exact h'
            · exact absurd h' hft
          subst hfk
          rw [show ((t.foldl (fun a k => setCell a k (quoteCellVal rawCols m r k))
              (setCell (acc.map (fun p => (p.1, Val.vnan))) f (quoteCellVal rawCols m r f)),
              true) : Row × Bool).1 =
              t.foldl (fun a k => setCell a k (quoteCellVal rawCols m r k))
                (setCell (acc.map (fun p => (p.1, Val.vnan))) f
                  (quoteCellVal rawCols m r f)) from rfl]
          rw [getCell_foldl_setCellKeys_not_mem t _ _ f hft, getCell_setCell_self, hval]
      · have hstep : quoteStep rawCols m r (acc, false) k =
            (setCell acc k (quoteScalar m k), false) := by
          unfold quoteStep
          rw [if_neg hk]
        have hfk : f ≠ k := fun e => hk (e ▸ hser)
        have hft : f ∈ t := by
          rcases List.mem_cons.mp hf with h' | h'
          · exact absurd h' hfk
          · exact h'
        rw [hstep]
        exact ih _ hft

/-- Claim C4, amended: when at least one canonical field copies an
existing source column and the supplier table is non-empty, the quote
index yields exactly one index row per input row (no deduplication),
each tagged with its supplier; and its field resolution agrees with the
merge-path resolution on a plain column-referenced field provided the
merge path leaves that field untouched — the field is none of the parsed
quantity/weight/title fields, not a numerically normalized column, not a
catalog default or the vendor stamp, not the supplier tag, and every
cell of its source column is a string outside the null-sentinel set
(otherwise the merge path's normalization rewrites it while the quote
path copies it verbatim).  Tag synthesis, field parsers and catalog
defaults act on the merge path alone (see the counterexample).  A
supplier whose mapping copies no existing source column (or whose table
is empty) is skipped entirely — `export_data` never acquires a row index
and stays empty — so it contributes no index rows at all (last
conjunct). -/
theorem C4_amended_quote_index (raw : DF) (m : Mapping) (shopCols : List String)
    (supplier : String) (f src : String)
    (hrows : raw.rows ≠ [])
    (hfshop : f ∈ shopCols)
    (hmf : f ∈ mappedFields m)
    (hlookup : m.lookup f = some src)
    (hsrc : src ≠ "") (hsrccol : src ∈ raw.cols)
    (hnum : f ∉ numericCols)
    (hdef : f ∉ defaultPairs.map Prod.fst)
    (hvendor : f ≠ "Vendor") (htitle : f ≠ "Title") (hsup : f ≠ "_Supplier")
    (hcells : ∀ r ∈ raw.rows, ∃ t, getCell r src = some (.vstr t) ∧ t ∉ sentinelStrs) :
    (buildQuote raw m shopCols supplier).rows.length = raw.rows.length ∧
    (∀ r ∈ (buildQuote raw m shopCols supplier).rows,
      getCell r "_Supplier" = some (.vstr supplier)) ∧
    ((buildQuote raw m shopCols supplier).rows.map (fun r => getCell r f) =
      (mergedSupplier raw m supplier).rows.map (fun r => getCell r f)) ∧
    (∀ (m' : Mapping) (cs : List String),
      ¬ (cs.any (quoteHasSeries raw.cols m') = true ∧ raw.rows ≠ []) →
      (buildQuote raw m' cs supplier).rows = []) := by
  have h1 : f ≠ "Variant Inventory Qty" := by
    intro e
    exact hnum (e ▸ (by decide : "Variant Inventory Qty" ∈ numericCols))
  have h2 : f ≠ "Variant Grams" := by
    intro e
    exact hnum (e ▸ (by decide : "Variant Grams" ∈ numericCols))
  have hser : quoteHasSeries raw.cols m f = true := by
    unfold quoteHasSeries
    rw [hlookup]
    show decide (src ≠ "" ∧ src ∈ raw.cols) = true
    exact decide_eq_true ⟨hsrc, hsrccol⟩
  have hcond : shopCols.any (quoteHasSeries raw.cols m) = true ∧ raw.rows ≠ [] :=
    ⟨List.any_eq_true.mpr ⟨f, hfshop, hser⟩, hrows⟩
  refine ⟨?_, ?_, ?_, ?_⟩
  · unfold buildQuote
    rw [if_pos hcond]
    exact List.length_map _ _
  · intro r hr
    unfold buildQuote at hr
    rw [if_pos hcond] at hr
    simp only [List.mem_map] at hr
    obtain ⟨r₀, _, hre⟩ := hr
    rw [← hre]
    exact getCell_setCell_self _ _ _
  · -- the quote side evaluates pointwise to the raw column value
    have hquote : (buildQuote raw m shopCols supplier).rows.map (fun r => getCell r f) =
        raw.rows.map (fun r => getCell r src) := by
      unfold buildQuote
      rw [if_pos hcond]
      dsimp only
      rw [List.map_map]
      refine List.map_congr_left ?_
      intro r hr
      show getCell (setCell (buildQuoteRow raw.cols m shopCols r) "_Supplier"
        (.vstr supplier)) f = getCell r src
      rw [getCell_setCell_ne _ _ _ _ hsup]
      unfold buildQuoteRow
      rw [buildQuoteRow_getCell_series raw.cols m r f src hlookup hser shopCols [] hfshop]
      rcases hcells r hr with ⟨t, ht, _⟩
      rw [ht]
      rfl
    -- the merge side evaluates pointwise to the same value
    have hmapped : (applyMapping raw m).rows.map (fun r => getCell r f) =
        raw.rows.map (fun r => getCell r src) := by
      unfold applyMapping
      dsimp only
      rw [List.map_map]
      refine List.map_congr_left ?_
      intro r hr
      show getCell ((mappedFields m).map
        (fun k => (k, resolveField raw.cols m r k ((m.lookup k).getD "")))) f = getCell r src
      rw [getCell_map_keys (mappedFields m)
        (fun k => resolveField raw.cols m r k ((m.lookup k).getD "")) f, if_pos hmf]
      show some (resolveField raw.cols m r f ((m.lookup f).getD "")) = getCell r src
      rw [hlookup]
      show some (resolveField raw.cols m r f src) = getCell r src
      unfold resolveField
      rw [if_pos ⟨hsrc, hsrccol⟩]
      rcases hcells r hr with ⟨t, ht, _⟩
      rw [ht]
      rfl
    have hmerge : (mergedSupplier raw m supplier).rows.map (fun r => getCell r f) =
        raw.rows.map (fun r => getCell r src) := by
      unfold mergedSupplier
      have hnorm : (normalize_dataframe_types
          (addDefaultValues (applyTransformations (applyMapping raw m)) supplier)).rows.map
            (fun r => getCell r f) =
          (addDefaultValues (applyTransformations (applyMapping raw m)) supplier).rows.map
            (fun r => (getCell r f).map (normalizeCell f)) := by
        unfold normalize_dataframe_types
        dsimp only
        rw [List.map_map]
        refine List.map_congr_left ?_
        intro r _
        exact getCell_mapCells r normalizeCell f
      have hsplit : ∀ L : List Row,
          L.map (fun r => (getCell r f).map (normalizeCell f)) =
            (L.map (fun r => getCell r f)).map (fun o => o.map (normalizeCell f)) := by
        intro L
        rw [List.map_map]
        rfl
      rw [hnorm, hsplit, addDefaultValues_rows_getCell _ _ _ hvendor hdef,
        applyTransformations_rows_getCell _ _ h1 h2 htitle, hmapped, List.map_map]
      refine List.map_congr_left ?_
      intro r hr
      rcases hcells r hr with ⟨t, ht, htsent⟩
      show ((getCell r src).map (normalizeCell f)) = getCell r src
      rw [ht]
      show some (normalizeCell f (.vstr t)) = some (.vstr t)
      unfold normalizeCell
      rw [if_neg hnum]
      show some (Val.vstr (if valToStr (Val.vstr t) ∈ sentinelStrs then ""
        else valToStr (Val.vstr t))) = some (Val.vstr t)
      rw [show valToStr (Val.vstr t) = t from rfl, if_neg htsent]
    rw [hquote, hmerge]
  · intro m' cs hncond
    unfold buildQuote
    rw [if_neg hncond]

/-- Witness for C4 (amended): the one-column `Handle → Name` mapping,
where the quote and merge paths agree. -/
theorem C4_amended_quote_index_witness :
    (rawHandle.rows ≠ [] ∧ "Handle" ∈ ["Handle"] ∧ "Handle" ∈ mappedFields mapHandle ∧
      mapHandle.lookup "Handle" = some "Name" ∧ "Name" ≠ "" ∧ "Name" ∈ rawHandle.cols ∧
      "Handle" ∉ numericCols ∧ "Handle" ∉ defaultPairs.map Prod.fst) ∧
    ((buildQuote rawHandle mapHandle ["Handle"] "S").rows.length = rawHandle.rows.length ∧
    (∀ r ∈ (buildQuote rawHandle mapHandle ["Handle"] "S").rows,
      getCell r "_Supplier" = some (.vstr "S")) ∧
    ((buildQuote rawHandle mapHandle ["Handle"] "S").rows.map (fun r => getCell r "Handle") =
      (mergedSupplier rawHandle mapHandle "S").rows.map (fun r => getCell r "Handle")) ∧
    (∀ (m' : Mapping) (cs : List String),
      ¬ (cs.any (quoteHasSeries rawHandle.cols m') = true ∧ rawHandle.rows ≠ []) →
      (buildQuote rawHandle m' cs "S").rows = [])) :=
  ⟨⟨by decide, by decide, by decide, by decide, by decide, by decide, by decide, by decide⟩,
    C4_amended_quote_index rawHandle mapHandle ["Handle"] "S" "Handle" "Name"
      (by decide) (by decide) (by decide) (by decide) (by decide) (by decide) (by decide)
      (by decide) (by decide) (by decide) (by decide)
      (fun r hr => by
        have : r = [("Name", Val.vstr "Widget")] := by
          rcases List.mem_singleton.mp hr with h
          exact h
        rw [this]
        exact ⟨"Widget", rfl, by decide⟩)⟩

/-! ## C6: best-price selection -/

/-- Counterexample to C6 as stated: with a secondary-field price 5 seen
first and a primary-field cost 10 seen later, the selection keeps the
`Variant Price` 5 — the primary field does *not* win whenever both fields
are present across the candidates, because a recorded secondary best is
only displaced by a strictly smaller primary value. -/
theorem C6_counterexample :
    lowestCostProduct rowsPriority =
      some ⟨"Variant Price", 5, [("Cost per item", .vstr ""), ("Variant Price", .vstr "5")]⟩ ∧
    ("Variant Price" ≠ "Cost per item") :=
  ⟨rfl, by decide⟩

/-- Under dead secondary fields, one row of the selection loop is the
running minimum over its primary candidates. -/
theorem considerRow_cells_eq_stepC (r : Row) (l : List (String × Val))
    (hsec : ∀ p ∈ l, p.1 ≠ "Cost per item" → isCostBearing p.1 = true →
      parsePrice p.2 = none) (b₀ : Option BestPick) :
    l.foldl (fun b p => considerCell r b p.1 p.2) b₀ =
      ((l.filterMap (fun p => if p.1 = "Cost per item" then parsePrice p.2 else none)).map
        (fun q => (q, r))).foldl stepC b₀ := by
  induction l generalizing b₀ with
  | nil => rfl
  | cons p t ih =>
      have hsect : ∀ p ∈ t, p.1 ≠ "Cost per item" → isCostBearing p.1 = true →
          parsePrice p.2 = none := fun q hq => hsec q (List.mem_cons_of_mem _ hq)
      rw [List.foldl_cons, List.filterMap_cons]
      by_cases hcp : p.1 = "Cost per item"
      · rw [if_pos hcp]
        have hbear : isCostBearing p.1 = true := by
          rw [hcp]
          decide
        cases hp : parsePrice p.2 with
        | none =>
            have hcc : considerCell r b₀ p.1 p.2 = b₀ := by
              unfold considerCell
              rw [if_pos hbear, hp]
            rw [hcc]
            exact ih hsect b₀
        | some q =>
            have hcc : considerCell r b₀ p.1 p.2 = stepC b₀ (q, r) := by
              unfold considerCell stepC
              rw [if_pos hbear, hp]
              dsimp only
              rw [if_pos hcp, hcp]
            rw [hcc, List.map_cons, List.foldl_cons]
            exact ih hsect _
      · rw [if_neg hcp]
        have hcc : considerCell r b₀ p.1 p.2 = b₀ := by
          unfold considerCell
          rcases hbear : isCostBearing p.1 with _ | _
          · rfl
          · rw [hsec p (List.mem_cons_self _ _) hcp hbear]
            rfl
        rw [hcc]
        exact ih hsect b₀

/-- Under dead secondary fields, the whole selection loop is the running
minimum over all primary candidates. -/
theorem lowestCostProduct_eq_stepC_fold (rows : List Row)
    (Hsec : ∀ r ∈ rows, ∀ p ∈ r, p.1 ≠ "Cost per item" → isCostBearing p.1 = true →
      parsePrice p.2 = none) :
    lowestCostProduct rows = (primCandsRows rows).foldl stepC none := by
  suffices h : ∀ (rows : List Row), (∀ r ∈ rows, ∀ p ∈ r, p.1 ≠ "Cost per item" →
      isCostBearing p.1 = true → parsePrice p.2 = none) →
      ∀ b₀, rows.foldl considerRow b₀ = (primCandsRows rows).foldl stepC b₀ by
    exact h rows Hsec none
  intro rows
  induction rows with
  | nil => intro _ b₀; rfl
  | cons r t ih =>
      intro Hsec b₀
      have hr : considerRow b₀ r = ((primCands r).map (fun q => (q, r))).foldl stepC b₀ :=
        considerRow_cells_eq_stepC r r (Hsec r (List.mem_cons_self _ _)) b₀
      rw [List.foldl_cons, hr, ih (fun q hq => Hsec q (List.mem_cons_of_mem _ hq)) _]
      show (primCandsRows t).foldl stepC _ = (primCandsRows (r :: t)).foldl stepC b₀
      have hsplit : primCandsRows (r :: t) =
          (primCands r).map (fun q => (q, r)) ++ primCandsRows t := by
        unfold primCandsRows
        rw [List.map_cons, List.flatten_cons]
      rw [hsplit, List.foldl_append]

/-- The running minimum over a candidate list: the result stays or is one
of the candidates, it bounds every candidate from below, and it never
rises above the incoming best. -/
theorem stepC_fold_spec (L : List (ℚ × Row)) : ∀ (b₀ : Option BestPick),
    (b₀ = none ∨ ∃ bb, b₀ = some bb ∧ bb.field = "Cost per item") →
    ((L.foldl stepC b₀ = b₀ ∨
        ∃ c ∈ L, L.foldl stepC b₀ = some ⟨"Cost per item", c.1, c.2⟩) ∧
      (∀ c ∈ L, ∃ bb, L.foldl stepC b₀ = some bb ∧ bb.value ≤ c.1) ∧
      (∀ bb₀, b₀ = some bb₀ → ∃ bb, L.foldl stepC b₀ = some bb ∧ bb.value ≤ bb₀.value)) := by
  induction L with
  | nil =>
      intro b₀ _
      refine ⟨Or.inl rfl, ?_, ?_⟩
      · intro c hc
        cases hc
      · intro bb₀ hb₀
        exact ⟨bb₀, hb₀, le_refl _⟩
  | cons c t ih =>
      intro b₀ hb₀
      rcases hb : belowBest b₀ c.1 with _ | _
      · -- the incoming best is kept: it is some and already ≤ c.1
        have hstep : stepC b₀ c = b₀ := by
          unfold stepC
          rw [if_neg (by rw [hb]; exact Bool.false_ne_true)]
        obtain ⟨bb₀, hbb₀, hle₀⟩ : ∃ bb₀, b₀ = some bb₀ ∧ bb₀.value ≤ c.1 := by
          cases b₀ with
          | none => cases hb
          | some bb₀ =>
              refine ⟨bb₀, rfl, ?_⟩
              have : ¬ (c.1 < bb₀.value) := by
                intro hlt
                have : belowBest (some bb₀) c.1 = true := by
                  unfold belowBest
                  exact decide_eq_true hlt
                rw [this] at hb
                cases hb
              exact le_of_not_lt this
        have hfold : (c :: t).foldl stepC b₀ = t.foldl stepC b₀ := by
          rw [List.foldl_cons, hstep]
        rcases ih b₀ hb₀ with ⟨ih1, ih2, ih3⟩
        refine ⟨?_, ?_, ?_⟩
        · rw [hfold]
          rcases ih1 with h | ⟨c', hc', he⟩
          · exact Or.inl h
          · exact Or.inr ⟨c', List.mem_cons_of_mem _ hc', he⟩
        · intro x hx
          rw [hfold]
          rcases List.mem_cons.mp hx with h | h
          · obtain ⟨bb, hbe, hble⟩ := ih3 bb₀ hbb₀
            exact ⟨bb, hbe, h ▸ le_trans hble hle₀⟩
          · exact ih2 x h
        · intro bb₀' hb₀'
          rw [hfold]
          exact ih3 bb₀' hb₀'
      · -- a new primary best is adopted
        have hstep : stepC b₀ c = some ⟨"Cost per item", c.1, c.2⟩ := by
          unfold stepC
          rw [if_pos hb]
        have hfold : (c :: t).foldl stepC b₀ =
            t.foldl stepC (some ⟨"Cost per item", c.1, c.2⟩) := by
          rw [List.foldl_cons, hstep]
        rcases ih (some ⟨"Cost per item", c.1, c.2⟩)
          (Or.inr ⟨_, rfl, rfl⟩) with ⟨ih1, ih2, ih3⟩
        refine ⟨?_, ?_, ?_⟩
        · rw [hfold]
          rcases ih1 with h | ⟨c', hc', he⟩
          · exact Or.inr ⟨c, List.mem_cons_self _ _, h⟩
          · exact Or.inr ⟨c', List.mem_cons_of_mem _ hc', he⟩
        · intro x hx
          rw [hfold]
          rcases List.mem_cons.mp hx with h | h
          · obtain ⟨bb, hbe, hble⟩ := ih3 _ rfl
            exact ⟨bb, hbe, h ▸ hble⟩
          · exact ih2 x h
        · intro bb₀ hb₀'
          obtain ⟨bb, hbe, hble⟩ := ih3 _ rfl
          rw [hfold]
          refine ⟨bb, hbe, le_trans hble ?_⟩
          show c.1 ≤ bb₀.value
          have : c.1 < bb₀.value := by
            rw [hb₀'] at hb
            unfold belowBest at hb
            exact of_decide_eq_true hb
          exact le_of_lt this

/-- Claim C6, amended: when every cost-bearing value outside the primary
field fails to parse (placeholders `""`, `"0"`, `"null"`, `"n/a"` are
treated as absent, never zero), the selection returns a `Cost per item`
pick whose value is attained by some candidate cell and bounds every
parsed primary cost from below.  The cross-field priority of the original
claim fails in general (see the counterexample): a recorded secondary
best is displaced only by a strictly smaller primary value. -/
theorem C6_amended_best_price (rows : List Row)
    (Hsec : ∀ r ∈ rows, ∀ p ∈ r, p.1 ≠ "Cost per item" → isCostBearing p.1 = true →
      parsePrice p.2 = none)
    (Hex : ∃ r ∈ rows, ∃ p ∈ r, p.1 = "Cost per item" ∧ (parsePrice p.2).isSome) :
    ∃ bb, lowestCostProduct rows = some bb ∧ bb.field = "Cost per item" ∧
      (∃ r ∈ rows, ∃ v : Val, ("Cost per item", v) ∈ r ∧
        parsePrice v = some bb.value ∧ bb.row = r) ∧
      (∀ r ∈ rows, ∀ p ∈ r, p.1 = "Cost per item" →
        ∀ q, parsePrice p.2 = some q → bb.value ≤ q) := by
  have hcand_of_cell : ∀ r ∈ rows, ∀ p ∈ r, p.1 = "Cost per item" →
      ∀ q, parsePrice p.2 = some q → (q, r) ∈ primCandsRows rows := by
    intro r hr p hp hcp q hq
    unfold primCandsRows
    rw [List.mem_flatten]
    refine ⟨(primCands r).map (fun q => (q, r)), List.mem_map_of_mem _ hr, ?_⟩
    refine List.mem_map_of_mem _ ?_
    unfold primCands
    rw [List.mem_filterMap]
    exact ⟨p, hp, by rw [if_pos hcp, hq]⟩
  have hcell_of_cand : ∀ c ∈ primCandsRows rows, c.2 ∈ rows ∧
      ∃ v : Val, ("Cost per item", v) ∈ c.2 ∧ parsePrice v = some c.1 := by
    intro c hc
    unfold primCandsRows at hc
    rw [List.mem_flatten] at hc
    obtain ⟨l, hl, hcl⟩ := hc
    rcases List.mem_map.mp hl with ⟨r, hrmem, hle⟩
    rw [← hle] at hcl
    rcases List.mem_map.mp hcl with ⟨q, hqmem, hqe⟩
    unfold primCands at hqmem
    rw [List.mem_filterMap] at hqmem
    obtain ⟨p, hpmem, hpe⟩ := hqmem
    by_cases hcp : p.1 = "Cost per item"
    · rw [if_pos hcp] at hpe
      have hc2 : c.2 = r := by rw [← hqe]
      have hc1 : c.1 = q := by rw [← hqe]
      refine ⟨hc2 ▸ hrmem, p.2, ?_, ?_⟩
      · rw [hc2]
        have : ("Cost per item", p.2) = p := by
          rw [← hcp]
        rw [this]
        exact hpmem
      · rw [hc1]
        exact hpe
    · rw [if_neg hcp] at hpe
      cases hpe
  rw [lowestCostProduct_eq_stepC_fold rows Hsec]
  obtain ⟨r₀, hr₀, p₀, hp₀, hcp₀, hsome₀⟩ := Hex
  obtain ⟨q₀, hq₀⟩ := Option.isSome_iff_exists.mp hsome₀
  have hc₀ : (q₀, r₀) ∈ primCandsRows rows := hcand_of_cell r₀ hr₀ p₀ hp₀ hcp₀ q₀ hq₀
  rcases stepC_fold_spec (primCandsRows rows) none (Or.inl rfl) with ⟨h1, h2, _⟩
  obtain ⟨bb, hbe, _⟩ := h2 _ hc₀
  rcases h1 with h | ⟨c, hcmem, he⟩
  · rw [h] at hbe
    cases hbe
  · have hbb : bb = ⟨"Cost per item", c.1, c.2⟩ := by
      rw [hbe] at he
      exact Option.some.inj he.symm |>.symm
    rcases hcell_of_cand c hcmem with ⟨hc2, v, hv, hpv⟩
    refine ⟨bb, hbe, by rw [hbb], ⟨c.2, hc2, v, hv, ?_, by rw [hbb]⟩, ?_⟩
    · rw [hbb]
      exact hpv
    · intro r hr p hp hcp q hq
      obtain ⟨bb', hbe', hble'⟩ := h2 _ (hcand_of_cell r hr p hp hcp q hq)
      rw [hbe] at hbe'
      have : bb' = bb := Option.some.inj hbe'.symm
      exact this ▸ hble'

/-- Witness for C6 (amended): the 10/8/12 scenario — the selection
reports best price 8, and (checked directly) the winning row is the
supplier-`B` entry. -/
theorem C6_amended_best_price_witness :
    ((∀ r ∈ rowsScenario, ∀ p ∈ r, p.1 ≠ "Cost per item" → isCostBearing p.1 = true →
        parsePrice p.2 = none) ∧
      (∃ r ∈ rowsScenario, ∃ p ∈ r, p.1 = "Cost per item" ∧ (parsePrice p.2).isSome)) ∧
    (∃ bb, lowestCostProduct rowsScenario = some bb ∧ bb.field = "Cost per item" ∧
      (∃ r ∈ rowsScenario, ∃ v : Val, ("Cost per item", v) ∈ r ∧
        parsePrice v = some bb.value ∧ bb.row = r) ∧
      (∀ r ∈ rowsScenario, ∀ p ∈ r, p.1 = "Cost per item" →
        ∀ q, parsePrice p.2 = some q → bb.value ≤ q)) ∧
    lowestCostProduct rowsScenario = some ⟨"Cost per item", 8,
      [("Variant SKU", .vstr "ABC123"), ("Cost per item", .vstr "8"),
       ("_Supplier", .vstr "B")]⟩ :=
  ⟨⟨by decide, by decide⟩,
    C6_amended_best_price rowsScenario (by decide) (by decide), rfl⟩

/-! ## C10: what the caller's table looks like after the call -/

/-- Counterexample to C10 as stated: the claim says backfilled image
values are written into the caller's table.  In fact `dropna` rebinds the
local name to a fresh copy, and the backfill mutates that copy: on
`dfImg` the caller's kept-row image cell is still empty after the call,
while the final table (derived from the copy) carries the adopted URL. -/
theorem C10_counterexample :
    getCell ((find_and_remove_duplicates dfImg).callerAfter.rows.headD []) "Image Src" =
      some (.vstr "") ∧
    (find_and_remove_duplicates dfImg).finalRows =
      [(0, [("Variant SKU", .vstr "X1"), ("Cost per item", .vnum 5),
            ("Image Src", .vstr "http://img.example.com/a.jpg")])] ∧
    (Val.vstr "" ≠ .vstr "http://img.example.com/a.jpg") :=
  ⟨rfl, rfl, by decide⟩

theorem map_eq_self_forall {α : Type} (f : α → α) (l : List α) (h : l.map f = l) :
    ∀ x ∈ l, f x = x := by
  induction l with
  | nil => intro x hx; cases hx
  | cons a t ih =>
      rw [List.map_cons] at h
      rcases List.cons.inj h with ⟨ha, ht⟩
      intro x hx
      rcases List.mem_cons.mp hx with h' | h'
      · rw [h', ha]
      · exact ih ht x h'

/-- Claim C10, amended: when the SKU and cost columns are present,
`find_and_remove_duplicates` mutates the caller's table in place only
through the cost column — every cost cell is replaced by its numeric
coercion (unparseable → NaN) and every other cell is untouched; image
backfill happens on the internal post-`dropna` copy and never reaches the
caller's table (see the counterexample).  The caller's table is therefore
not preserved exactly when some cost cell changes under coercion. -/
theorem C10_amended_caller_mutation (df : DF) (hs : SKU ∈ df.cols) (hc : COST ∈ df.cols) :
    (find_and_remove_duplicates df).callerAfter.cols = df.cols ∧
    (find_and_remove_duplicates df).callerAfter.rows =
      df.rows.map (mapRowCol COST costCellCoerce) ∧
    (∀ r ∈ df.rows,
      getCell (mapRowCol COST costCellCoerce r) COST = (getCell r COST).map costCellCoerce ∧
      ∀ c, c ≠ COST → getCell (mapRowCol COST costCellCoerce r) c = getCell r c) ∧
    ((∃ r ∈ df.rows, ∃ v, getCell r COST = some v ∧ costCellCoerce v ≠ v) →
      (find_and_remove_duplicates df).callerAfter.rows ≠ df.rows) := by
  have hcaller : (find_and_remove_duplicates df).callerAfter = coerceCostDF df := by
    unfold find_and_remove_duplicates
    rw [if_pos ⟨hs, hc⟩]
  refine ⟨by rw [hcaller]; rfl, by rw [hcaller]; rfl, ?_, ?_⟩
  · intro r _
    constructor
    · rw [getCell_mapRowCol, if_pos rfl]
    · intro c hcne
      rw [getCell_mapRowCol, if_neg hcne]
  · rintro ⟨r, hr, v, hv, hne⟩ heq
    rw [hcaller] at heq
    have hfix := map_eq_self_forall (mapRowCol COST costCellCoerce) df.rows heq r hr
    have hcell : getCell (mapRowCol COST costCellCoerce r) COST = getCell r COST := by
      rw [hfix]
    rw [getCell_mapRowCol, if_pos rfl, hv] at hcell
    exact hne (Option.some.inj hcell)

/-- Witness for C10 (amended): the `dfImg` table, whose cost cells are
numeric strings, coerced in place. -/
theorem C10_amended_caller_mutation_witness :
    (SKU ∈ dfImg.cols ∧ COST ∈ dfImg.cols) ∧
    ((find_and_remove_duplicates dfImg).callerAfter.cols = dfImg.cols ∧
    (find_and_remove_duplicates dfImg).callerAfter.rows =
      dfImg.rows.map (mapRowCol COST costCellCoerce) ∧
    (∀ r ∈ dfImg.rows,
      getCell (mapRowCol COST costCellCoerce r) COST = (getCell r COST).map costCellCoerce ∧
      ∀ c, c ≠ COST → getCell (mapRowCol COST costCellCoerce r) c = getCell r c) ∧
    ((∃ r ∈ dfImg.rows, ∃ v, getCell r COST = some v ∧ costCellCoerce v ≠ v) →
      (find_and_remove_duplicates dfImg).callerAfter.rows ≠ dfImg.rows)) :=
  ⟨⟨by decide, by decide⟩,
    C10_amended_caller_mutation dfImg (by decide) (by decide)⟩

end Datafeeds
